import Mathlib

/-!
# Students dashboard (`src/frontend/src/App.jsx`): fetch-and-reconcile core

A shallow embedding of `getJSON`, `refresh`, `onCreate` and `onDelete`.

* JavaScript values are the inductive `JsVal`; an object is the list of its
  own enumerable entries in the order `Object.entries` yields them.
* A handler is a function from its environment (the answers of `fetch` and
  `confirm`) to the list of effects it performs, in program order: the
  requests it issues and the React state setters it calls.  `View.run`
  replays such a list on a view state, one setter after the other, which is
  how React applies queued updates (a functional updater sees the value
  left by the updates queued before it).
-/

namespace Dashboard

/-! ## JavaScript values -/

/-- A JavaScript number: `NaN`, the two infinities, or a finite value.  Finite
values are kept as the rational they denote; `fin 0` stands for both zeros,
which the code never tells apart. -/
inductive JsNum where
  | nan
  | posInf
  | negInf
  | fin (q : ℚ)
  deriving DecidableEq

/-- A JavaScript value as it can come out of `r.json()`, `r.text()` or an
out-of-range array index. -/
inductive JsVal where
  | undefined
  | null
  | bool (b : Bool)
  | num (n : JsNum)
  | str (s : String)
  | arr (items : List JsVal)
  | obj (entries : List (String × JsVal))

/-- The test `Array.isArray(v)`. -/
def JsVal.isArray : JsVal → Bool
  | .arr _ => true
  | _ => false

/-- The test `v == null`, true of `null` and `undefined` only. -/
def JsVal.isNullish : JsVal → Bool
  | .undefined => true
  | .null => true
  | _ => false

/-- The read `row[i]` on an array: the element, or `undefined` past the end. -/
def index (items : List JsVal) (i : Nat) : JsVal :=
  items.getD i JsVal.undefined

/-! ## Strings -/

/-- The test `hay.includes(needle)` on the characters of two strings. -/
def includesChars : List Char → List Char → Bool
  | [], needle => needle.isEmpty
  | c :: cs, needle => needle.isPrefixOf (c :: cs) || includesChars cs needle

/-- The test `hay.includes(needle)`. -/
def includes (hay needle : String) : Bool :=
  includesChars hay.data needle.data

/-- The call `String(k).toLowerCase()`.  Only the letters A to Z are mapped: no other
character lower-cases to a letter of "year", "count" or "total", the only
texts the result is searched for. -/
def toLowerCase (s : String) : String :=
  ⟨s.data.map Char.toLower⟩

/-- The white space and line terminators that `trim` and `Number` strip. -/
def isStrWhiteSpaceChar (c : Char) : Bool :=
  c.val.toNat ∈ [0x09, 0x0A, 0x0B, 0x0C, 0x0D, 0x20, 0xA0, 0x1680,
    0x2000, 0x2001, 0x2002, 0x2003, 0x2004, 0x2005, 0x2006, 0x2007, 0x2008,
    0x2009, 0x200A, 0x2028, 0x2029, 0x202F, 0x205F, 0x3000, 0xFEFF]

/-- Strips white space from both ends of a character list. -/
def trimChars (cs : List Char) : List Char :=
  ((cs.dropWhile isStrWhiteSpaceChar).reverse.dropWhile isStrWhiteSpaceChar).reverse

/-- The call `s.trim()`. -/
def trim (s : String) : String :=
  ⟨trimChars s.data⟩

/-! ## Year-aggregate normalisation (`refresh`, lines 52-68) -/

/-- One `{ year, total }` row of the by-year table. -/
structure YearRow where
  year : JsVal
  total : JsVal

/-- The row as the JavaScript object `{ year, total }`. -/
def YearRow.toJs (x : YearRow) : JsVal :=
  JsVal.obj [("year", x.year), ("total", x.total)]

/-- The test `key.includes("year")` on the lower-cased key. -/
def isYearKey (k : String) : Bool :=
  includes (toLowerCase k) "year"

/-- The test `key.includes("count") || key.includes("total")` on the
lower-cased key. -/
def isTotalKey (k : String) : Bool :=
  includes (toLowerCase k) "count" || includes (toLowerCase k) "total"

/-- One turn of the `for (const [k, v] of entries)` loop. -/
def scanStep (acc : YearRow) (kv : String × JsVal) : YearRow :=
  let acc1 : YearRow := if isYearKey kv.1 then { acc with year := kv.2 } else acc
  if isTotalKey kv.1 then { acc1 with total := kv.2 } else acc1

/-- The whole key scan, started from `year = null, total = null`. -/
def scanEntries (entries : List (String × JsVal)) : YearRow :=
  entries.foldl scanStep ⟨JsVal.null, JsVal.null⟩

/-- The callback of `rawByYear.map`. -/
def mapRow : JsVal → YearRow
  | .arr items => ⟨index items 0, index items 1⟩
  | .obj entries => scanEntries entries
  | _ => ⟨JsVal.null, JsVal.null⟩

/-- The `normalized` rows followed by `.filter(x => x.year != null)`. -/
def normalizeByYear (rawByYear : JsVal) : List YearRow :=
  let normalized :=
    match rawByYear with
    | .arr rows => rows.map mapRow
    | _ => []
  normalized.filter (fun x => !x.year.isNullish)

/-- The key contains the word when case is ignored: a contiguous part of
the key lower-cases to the word. -/
def ContainsIgnoringCase (k word : String) : Prop :=
  ∃ mid : List Char, mid <:+: k.data ∧ mid.map Char.toLower = word.data

/-- Whether the value is a keyed object (an object that is no array). -/
def JsVal.isKeyed : JsVal → Bool
  | .obj _ => true
  | _ => false

/-- The list normalisation `Array.isArray(list) ? list : []` (line 33). -/
def normalizeList : JsVal → List JsVal
  | .arr items => items
  | _ => []

/-! ## `Number(txt)` on a string (ECMAScript `StringToNumber`) -/

/-- Halves `n` until it is below `2`, at most `fuel` times, counting the
halvings. -/
def log2Fuel : Nat → Nat → Nat
  | 0, _ => 0
  | fuel + 1, n => if n < 2 then 0 else log2Fuel fuel (n / 2) + 1

/-- The value `floor (log2 n)` for a positive natural number (`0` for `0`). -/
def floorLog2 (n : Nat) : Nat :=
  log2Fuel n n

/-- The value `floor (log2 |q|)` for a non-zero rational. -/
def binade (q : ℚ) : ℤ :=
  let e0 : ℤ := (floorLog2 q.num.natAbs : ℤ) - (floorLog2 q.den : ℤ)
  if (2 : ℚ) ^ e0 ≤ |q| then e0 else e0 - 1

/-- Rounds to the nearest integer, a tie going to the even one. -/
def roundHalfEven (x : ℚ) : ℤ :=
  let f := ⌊x⌋
  let d := x - f
  if d < 1 / 2 then f
  else if 1 / 2 < d then f + 1
  else if f % 2 = 0 then f else f + 1

/-- The Number value for a mathematical value: IEEE 754 binary64,
round to nearest, ties to even, with gradual underflow and overflow to an
infinity. -/
def roundBinary64 (q : ℚ) : JsNum :=
  if q = 0 then JsNum.fin 0
  else
    let u : ℚ := (2 : ℚ) ^ (max (binade q) (-1022) - 52)
    let r : ℚ := (roundHalfEven (q / u) : ℚ) * u
    if (2 : ℚ) ^ (1024 : ℤ) ≤ |r| then (if q < 0 then JsNum.negInf else JsNum.posInf)
    else JsNum.fin r

/-- Unary minus on a number. -/
def JsNum.neg : JsNum → JsNum
  | .nan => .nan
  | .posInf => .negInf
  | .negInf => .posInf
  | .fin q => .fin (-q)

/-- Value of one digit character, up to base 16. -/
def digitValue (c : Char) : Option Nat :=
  if '0' ≤ c ∧ c ≤ '9' then some (c.toNat - '0'.toNat)
  else if 'a' ≤ c ∧ c ≤ 'f' then some (c.toNat - 'a'.toNat + 10)
  else if 'A' ≤ c ∧ c ≤ 'F' then some (c.toNat - 'A'.toNat + 10)
  else none

/-- One more digit appended to the value read so far. -/
def digitStep (base : Nat) (acc : Nat) (c : Char) : Option Nat :=
  match digitValue c with
  | some d => if d < base then some (acc * base + d) else none
  | none => none

/-- The value of a non-empty run of digits of the base, `none` for anything
else. -/
def digitsValue (base : Nat) (cs : List Char) : Option Nat :=
  if cs = [] then none else cs.foldlM (digitStep base) 0

/-- The production `ExponentPart` (optional): the exponent, `0` when absent. -/
def exponentPart : List Char → Option Int
  | [] => some 0
  | c :: rest =>
    if c = 'e' ∨ c = 'E' then
      match rest with
      | '+' :: ds => (digitsValue 10 ds).map Int.ofNat
      | '-' :: ds => (digitsValue 10 ds).map (fun n => -Int.ofNat n)
      | ds => (digitsValue 10 ds).map Int.ofNat
    else none

/-- The production `StrUnsignedDecimalLiteral` other than `Infinity`: its mathematical
value. -/
def unsignedDecimalValue (cs : List Char) : Option ℚ :=
  let ip := cs.takeWhile Char.isDigit
  let r1 := cs.dropWhile Char.isDigit
  let fp := match r1 with
    | '.' :: t => t.takeWhile Char.isDigit
    | _ => []
  let r2 := match r1 with
    | '.' :: t => t.dropWhile Char.isDigit
    | _ => r1
  if ip = [] ∧ fp = [] then none
  else
    match (ip ++ fp).foldlM (digitStep 10) 0, exponentPart r2 with
    | some m, some e => some ((m : ℚ) * (10 : ℚ) ^ (e - (fp.length : ℤ)))
    | _, _ => none

/-- The production `StrUnsignedDecimalLiteral`. -/
def unsignedDecimal (cs : List Char) : Option JsNum :=
  if cs = "Infinity".data then some JsNum.posInf
  else (unsignedDecimalValue cs).map roundBinary64

/-- The production `StrDecimalLiteral`: an optional sign and an unsigned literal. -/
def strDecimalLiteral : List Char → Option JsNum
  | '+' :: r => unsignedDecimal r
  | '-' :: r => (unsignedDecimal r).map JsNum.neg
  | r => unsignedDecimal r

/-- The production `NonDecimalIntegerLiteral`: `0x`, `0o` or `0b` and digits of that base. -/
def nonDecimalInteger : List Char → Option Nat
  | '0' :: x :: ds =>
    if x = 'x' ∨ x = 'X' then digitsValue 16 ds
    else if x = 'o' ∨ x = 'O' then digitsValue 8 ds
    else if x = 'b' ∨ x = 'B' then digitsValue 2 ds
    else none
  | _ => none

/-- The conversion `Number(txt)` for a string: white space is stripped, the empty text is
`0`, a numeric literal is its Number value, anything else is `NaN`. -/
def stringToNumber (txt : String) : JsNum :=
  let cs := trimChars txt.data
  if cs = [] then JsNum.fin 0
  else
    match nonDecimalInteger cs with
    | some n => roundBinary64 n
    | none => (strDecimalLiteral cs).getD JsNum.nan

/-- The decimal numeral with the given digits, the most significant first. -/
def decimalText (ds : List Nat) : String :=
  ⟨ds.map Nat.digitChar⟩

/-- Whether a number is falsy: `NaN` and zero. -/
def JsNum.isFalsy : JsNum → Bool
  | .nan => true
  | .fin q => decide (q = 0)
  | _ => false

/-- The expression `Number(txt) || 0`, the argument of `setCount`. -/
def parseCount (txt : String) : JsNum :=
  let n := stringToNumber txt
  if n.isFalsy then JsNum.fin 0 else n

/-! ## Numeric texts and the numbers they denote

The grammar `StrNumericLiteral` of ECMAScript, stated as relations between a
text and the number it denotes, apart from the functions above that read a
text from left to right. -/

/-- The value of a digit character, `0` for any other character. -/
def digitOf (c : Char) : Nat :=
  (digitValue c).getD 0

/-- Every character of the run is a digit of the base. -/
def AllDigits (base : Nat) (cs : List Char) : Prop :=
  ∀ c ∈ cs, ∃ d, digitValue c = some d ∧ d < base

/-- The number a run of digits denotes in the base, the most significant
digit first. -/
def digitsNat (base : Nat) (cs : List Char) : Nat :=
  Nat.ofDigits base (cs.reverse.map digitOf)

/-- The exponent part of a decimal literal and the exponent it denotes:
nothing, or `e` or `E`, an optional sign and a non-empty run of digits. -/
inductive ExponentText : List Char → ℤ → Prop
  | absent : ExponentText [] 0
  | unsigned (c : Char) (ds : List Char) : (c = 'e' ∨ c = 'E') → ds ≠ [] → AllDigits 10 ds →
      ExponentText (c :: ds) (digitsNat 10 ds)
  | plus (c : Char) (ds : List Char) : (c = 'e' ∨ c = 'E') → ds ≠ [] → AllDigits 10 ds →
      ExponentText (c :: '+' :: ds) (digitsNat 10 ds)
  | minus (c : Char) (ds : List Char) : (c = 'e' ∨ c = 'E') → ds ≠ [] → AllDigits 10 ds →
      ExponentText (c :: '-' :: ds) (-(digitsNat 10 ds : ℤ))

/-- An unsigned decimal literal and the number it denotes: digits and an
exponent part, or digits, a point, digits and an exponent part, with a digit
on at least one side of the point. -/
inductive UnsignedDecimalText : List Char → ℚ → Prop
  | whole (ip e : List Char) (x : ℤ) : ip ≠ [] → AllDigits 10 ip → ExponentText e x →
      UnsignedDecimalText (ip ++ e) ((digitsNat 10 ip : ℚ) * (10 : ℚ) ^ x)
  | point (ip fp e : List Char) (x : ℤ) : (ip ≠ [] ∨ fp ≠ []) → AllDigits 10 ip →
      AllDigits 10 fp → ExponentText e x →
      UnsignedDecimalText (ip ++ '.' :: (fp ++ e))
        (((digitsNat 10 ip : ℚ) + (digitsNat 10 fp : ℚ) / (10 : ℚ) ^ fp.length) * (10 : ℚ) ^ x)

/-- A numeric text and the number it denotes: a decimal literal with an
optional sign, `Infinity` with an optional sign, or `0x`, `0o`, `0b` and a
non-empty run of digits of the base.  `JsNum.fin q` stands here for the exact
number `q`, before any rounding. -/
inductive NumericText : List Char → JsNum → Prop
  | decimal (cs : List Char) (q : ℚ) : UnsignedDecimalText cs q → NumericText cs (JsNum.fin q)
  | plus (cs : List Char) (q : ℚ) : UnsignedDecimalText cs q →
      NumericText ('+' :: cs) (JsNum.fin q)
  | minus (cs : List Char) (q : ℚ) : UnsignedDecimalText cs q →
      NumericText ('-' :: cs) (JsNum.fin (-q))
  | infinity : NumericText "Infinity".data JsNum.posInf
  | plusInfinity : NumericText ('+' :: "Infinity".data) JsNum.posInf
  | minusInfinity : NumericText ('-' :: "Infinity".data) JsNum.negInf
  | hex (x : Char) (ds : List Char) : (x = 'x' ∨ x = 'X') → ds ≠ [] → AllDigits 16 ds →
      NumericText ('0' :: x :: ds) (JsNum.fin (digitsNat 16 ds))
  | octal (x : Char) (ds : List Char) : (x = 'o' ∨ x = 'O') → ds ≠ [] → AllDigits 8 ds →
      NumericText ('0' :: x :: ds) (JsNum.fin (digitsNat 8 ds))
  | binary (x : Char) (ds : List Char) : (x = 'b' ∨ x = 'B') → ds ≠ [] → AllDigits 2 ds →
      NumericText ('0' :: x :: ds) (JsNum.fin (digitsNat 2 ds))

/-- The finite values of IEEE 754 binary64: `m * 2 ^ e` with `|m| < 2 ^ 53`
and `-1074 ≤ e ≤ 971`. -/
def IsBinary64 (r : ℚ) : Prop :=
  ∃ m e : ℤ, |m| < 2 ^ 53 ∧ -1074 ≤ e ∧ e ≤ 971 ∧ r = (m : ℚ) * (2 : ℚ) ^ e

/-- The Number value of the number a text denotes: a finite number is
rounded to binary64, an infinity is itself. -/
def numberValue : JsNum → JsNum
  | .fin q => roundBinary64 q
  | n => n

/-! ## The browser interface: `fetch`, `Response`, `confirm` -/

/-- A request handed to `fetch`.  `body` is the value given to
`JSON.stringify`, before serialisation. -/
structure Request where
  method : String
  url : String
  headers : List (String × String)
  body : Option JsVal

/-- The request of `fetch(url)` with no options. -/
def Request.get (url : String) : Request :=
  ⟨"GET", url, [], none⟩

/-- What the code reads from a `Response`: the status line, the
`content-type` header (`none` when `headers.get` answers `null`), and the
outcomes of `r.text()` and `r.json()` (`error` when the promise rejects). -/
structure Response where
  status : Nat
  statusText : String
  contentType : Option String
  text : Except String String
  json : Except String JsVal

/-- The flag `r.ok`: a status from 200 to 299. -/
def Response.ok (r : Response) : Bool :=
  decide (200 ≤ r.status) && decide (r.status ≤ 299)

/-- The outcome of awaiting `fetch`: the promise rejects (a transport failure,
with the message of the error) or resolves to a response. -/
inductive FetchResult where
  | rejected (message : String)
  | resolved (r : Response)

/-- Everything a handler asks of the browser. -/
structure Env where
  fetch : Request → FetchResult
  confirm : String → Bool

/-! ## View state and effects -/

/-- The draft form. -/
structure Form where
  nom : String
  prenom : String
  dateNaissance : String
  deriving DecidableEq

/-- The cleared form `{ nom: "", prenom: "", dateNaissance: "" }`. -/
def Form.empty : Form :=
  ⟨"", "", ""⟩

/-- The React state of `App`. -/
structure View where
  students : List JsVal
  count : JsNum
  byYear : List YearRow
  loading : Bool
  error : String
  form : Form
  saving : Bool

/-- The state of the first render. -/
def View.init : View :=
  ⟨[], JsNum.fin 0, [], false, "", Form.empty, false⟩

/-- One effect of a handler: a request, or a call of a state setter.
`setErrorIfEmpty msg` is the call `setError((p) => p || msg)`. -/
inductive Event where
  | fetch (req : Request)
  | setStudents (list : List JsVal)
  | setCount (n : JsNum)
  | setByYear (rows : List YearRow)
  | setLoading (b : Bool)
  | setError (msg : String)
  | setErrorIfEmpty (msg : String)
  | setForm (f : Form)
  | setSaving (b : Bool)

/-- The requests among a list of effects, in order. -/
def requests : List Event → List Request
  | [] => []
  | .fetch req :: rest => req :: requests rest
  | _ :: rest => requests rest

/-- The state after one effect. -/
def View.apply (s : View) : Event → View
  | .fetch _ => s
  | .setStudents list => { s with students := list }
  | .setCount n => { s with count := n }
  | .setByYear rows => { s with byYear := rows }
  | .setLoading b => { s with loading := b }
  | .setError msg => { s with error := msg }
  | .setErrorIfEmpty msg => { s with error := if s.error = "" then msg else s.error }
  | .setForm f => { s with form := f }
  | .setSaving b => { s with saving := b }

/-- The state after a list of effects. -/
def View.run (s : View) (evs : List Event) : View :=
  evs.foldl View.apply s

/-! ## `getJSON` (lines 3-11) -/

/-- The value `getJSON(path)` resolves to, or the message of the error it
throws, given the outcome of its `fetch`. -/
def getJSONResult (path : String) : FetchResult → Except String JsVal
  | .rejected message => .error message
  | .resolved r =>
    if !r.ok then
      let body := match r.text with
        | .ok t => t
        | .error _ => ""
      .error (path ++ " → " ++ toString r.status ++ " " ++ r.statusText ++ "\n" ++ body)
    else
      let ct := r.contentType.getD ""
      if includes ct "application/json" then r.json else r.text.map JsVal.str

/-- The call `getJSON(path)`: the request it issues and its outcome. -/
def getJSON (env : Env) (path : String) : List Event × Except String JsVal :=
  ([Event.fetch (Request.get path)], getJSONResult path (env.fetch (Request.get path)))

/-- Whether `getJSON` throws, given the outcome of its `fetch`: the fetch is
rejected, the status is no success, or reading the body (as JSON under a JSON
content type, as text otherwise) is rejected. -/
def getJSONFails : FetchResult → Bool
  | .rejected _ => true
  | .resolved r =>
    !r.ok ||
      (if includes (r.contentType.getD "") "application/json" then
        (match r.json with
          | .ok _ => false
          | .error _ => true)
      else
        (match r.text with
          | .ok _ => false
          | .error _ => true))

/-- Whether the count block of `refresh` lands in its `catch`, given the
outcome of its `fetch`: the fetch is rejected or reading the text is. -/
def countReadFails : FetchResult → Bool
  | .rejected _ => true
  | .resolved raw =>
    match raw.text with
    | .ok _ => false
    | .error _ => true

/-! ## `refresh` (lines 26-76) -/

/-- The message set when the list fetch fails. -/
def listFailure : String := "Some data failed to load (list)."

/-- The message set when the count fetch fails. -/
def countFailure : String := "Some data failed to load (count)."

/-- The first `try` block: the student list. -/
def refreshList (env : Env) : List Event :=
  let call := getJSON env "/api/students/all"
  call.1 ++
    match call.2 with
    | .ok list => [Event.setStudents (normalizeList list)]
    | .error _ => [Event.setStudents [], Event.setError listFailure]

/-- The second `try` block: the count, read with a bare `fetch` and
`raw.text()`. -/
def refreshCount (env : Env) : List Event :=
  Event.fetch (Request.get "/api/students/count") ::
    match env.fetch (Request.get "/api/students/count") with
    | .rejected _ => [Event.setCount (JsNum.fin 0), Event.setErrorIfEmpty countFailure]
    | .resolved raw =>
      match raw.text with
      | .ok txt => [Event.setCount (parseCount txt)]
      | .error _ => [Event.setCount (JsNum.fin 0), Event.setErrorIfEmpty countFailure]

/-- The third `try` block: the by-year table. -/
def refreshByYear (env : Env) : List Event :=
  let call := getJSON env "/api/students/byYear"
  call.1 ++
    match call.2 with
    | .ok rawByYear => [Event.setByYear (normalizeByYear rawByYear)]
    | .error _ => [Event.setByYear []]

/-- The handler `refresh()`: its effects in program order. -/
def refresh (env : Env) : List Event :=
  [Event.setLoading true, Event.setError ""] ++ refreshList env ++ refreshCount env ++
    refreshByYear env ++ [Event.setLoading false]

/-! ## `onCreate` (lines 24, 80-104) -/

/-- Truthiness of `form.nom.trim() && form.prenom.trim() && form.dateNaissance`:
a string is truthy when it is not empty. -/
def canSave (form : Form) : Bool :=
  decide (trim form.nom ≠ "") && decide (trim form.prenom ≠ "") &&
    decide (form.dateNaissance ≠ "")

/-- The request of `onCreate`. -/
def saveRequest (form : Form) : Request :=
  { method := "POST"
    url := "/api/students/save"
    headers := [("Content-Type", "application/json")]
    body := some (JsVal.obj [("nom", JsVal.str (trim form.nom)),
      ("prenom", JsVal.str (trim form.prenom)),
      ("dateNaissance", JsVal.str form.dateNaissance)]) }

/-- The handler `onCreate(e)` in a render whose draft form is `form`. -/
def onCreate (env : Env) (form : Form) : List Event :=
  if !canSave form then []
  else
    [Event.setSaving true, Event.fetch (saveRequest form)] ++
      (match env.fetch (saveRequest form) with
        | .rejected message => [Event.setError ("Create failed: " ++ message)]
        | .resolved r =>
          if !r.ok then
            [Event.setError ("Create failed: " ++
              ("save → " ++ toString r.status ++ " " ++ r.statusText))]
          else Event.setForm Form.empty :: refresh env) ++
      [Event.setSaving false]

/-! ## `onDelete` (lines 106-116) -/

/-- The request of `onDelete`; `idText` is the text the template literal
gives for `id`. -/
def deleteRequest (idText : String) : Request :=
  ⟨"DELETE", "/api/students/delete/" ++ idText, [], none⟩

/-- The handler `onDelete(id)`: its effects in program order; `confirm` is asked first. -/
def onDelete (env : Env) (idText : String) : List Event :=
  if !env.confirm ("Delete student #" ++ idText ++ "?") then []
  else
    Event.fetch (deleteRequest idText) ::
      match env.fetch (deleteRequest idText) with
      | .rejected message => [Event.setError ("Delete failed: " ++ message)]
      | .resolved r =>
        if !r.ok then
          [Event.setError ("Delete failed: " ++
            ("delete → " ++ toString r.status ++ " " ++ r.statusText))]
        else refresh env

/-! ## Sample environments -/

/-- A `200 OK` response with a JSON body. -/
def jsonResponse (text : String) (v : JsVal) : Response :=
  ⟨200, "OK", some "application/json", .ok text, .ok v⟩

/-- A response with a status, a status text and a plain-text body. -/
def textResponse (status : Nat) (statusText body : String) : Response :=
  ⟨status, statusText, some "text/plain", .ok body, .error "Unexpected token"⟩

/-- A backend that answers the three reads and every write with the given
outcomes, and a user who answers `confirm` with `yes`. -/
def backend (list count byYear write : FetchResult) (yes : Bool) : Env :=
  { fetch := fun req =>
      if req.method = "GET" then
        if req.url = "/api/students/all" then list
        else if req.url = "/api/students/count" then count
        else if req.url = "/api/students/byYear" then byYear
        else FetchResult.rejected "Failed to fetch"
      else write
    confirm := fun _ => yes }

/-- The list answer `[{"id": 1, "nom": "Dupont", "prenom": "Marie"}]`. -/
def sampleList : FetchResult :=
  .resolved (jsonResponse "[\x7b\"id\":1,\"nom\":\"Dupont\",\"prenom\":\"Marie\"\x7d]"
    (JsVal.arr [JsVal.obj [("id", JsVal.num (JsNum.fin 1)), ("nom", JsVal.str "Dupont"),
      ("prenom", JsVal.str "Marie")]]))

/-- The count answer `1`, as plain text. -/
def sampleCount : FetchResult :=
  .resolved (textResponse 200 "OK" "1")

/-- The by-year answer `[[2001, 1]]`. -/
def sampleByYear : FetchResult :=
  .resolved (jsonResponse "[[2001,1]]"
    (JsVal.arr [JsVal.arr [JsVal.num (JsNum.fin 2001), JsVal.num (JsNum.fin 1)]]))

/-- A `500` answer with a body. -/
def serverError (body : String) : FetchResult :=
  .resolved (textResponse 500 "Internal Server Error" body)

/-- A state left by earlier activity: a stale list, count and message. -/
def staleView : View :=
  { students := [JsVal.str "stale"]
    count := JsNum.fin 9
    byYear := [⟨JsVal.num (JsNum.fin 1999), JsVal.num (JsNum.fin 9)⟩]
    loading := false
    error := "Delete failed: delete → 404 Not Found"
    form := ⟨" Dupont ", "Marie", "2001-02-03"⟩
    saving := false }

end Dashboard

namespace Dashboard

/-! ## Lemmas on strings -/

theorem includesChars_iff (hay needle : List Char) :
    includesChars hay needle = true ↔ needle <:+: hay := by
  induction hay with
  | nil => simp [includesChars, List.isEmpty_iff]
  | cons c cs ih =>
    simp only [includesChars, Bool.or_eq_true, ih, List.infix_cons_iff]
    simp

theorem includes_toLowerCase_iff (k word : String) :
    includes (toLowerCase k) word = true ↔ ContainsIgnoringCase k word := by
  unfold includes toLowerCase ContainsIgnoringCase
  rw [includesChars_iff]
  constructor
  · rintro ⟨s, t, h⟩
    obtain ⟨l₁, l₂, h₁, h₂, _⟩ := List.map_eq_append_iff.mp h.symm
    obtain ⟨l₃, l₄, h₃, _, h₄⟩ := List.map_eq_append_iff.mp h₂
    exact ⟨l₄, ⟨l₃, l₂, by rw [h₁, h₃]⟩, h₄⟩
  · rintro ⟨mid, ⟨s, t, h⟩, hm⟩
    refine ⟨s.map Char.toLower, t.map Char.toLower, ?_⟩
    rw [← h, ← hm]
    simp

/-! ## Lemmas on the key scan -/

theorem scanStep_year (acc : YearRow) (kv : String × JsVal) :
    (scanStep acc kv).year = if isYearKey kv.1 then kv.2 else acc.year := by
  unfold scanStep
  by_cases hy : isYearKey kv.1 = true <;> by_cases ht : isTotalKey kv.1 = true <;> simp [hy, ht]

theorem scanStep_total (acc : YearRow) (kv : String × JsVal) :
    (scanStep acc kv).total = if isTotalKey kv.1 then kv.2 else acc.total := by
  unfold scanStep
  by_cases hy : isYearKey kv.1 = true <;> by_cases ht : isTotalKey kv.1 = true <;> simp [hy, ht]

theorem foldl_scanStep_year_keep (post : List (String × JsVal)) (acc : YearRow)
    (h : ∀ kv ∈ post, isYearKey kv.1 = false) :
    (post.foldl scanStep acc).year = acc.year := by
  induction post generalizing acc with
  | nil => rfl
  | cons kv rest ih =>
    rw [List.foldl_cons, ih _ (fun x hx => h x (List.mem_cons_of_mem _ hx)), scanStep_year,
      h kv (List.mem_cons_self _ _)]
    simp

theorem foldl_scanStep_total_keep (post : List (String × JsVal)) (acc : YearRow)
    (h : ∀ kv ∈ post, isTotalKey kv.1 = false) :
    (post.foldl scanStep acc).total = acc.total := by
  induction post generalizing acc with
  | nil => rfl
  | cons kv rest ih =>
    rw [List.foldl_cons, ih _ (fun x hx => h x (List.mem_cons_of_mem _ hx)), scanStep_total,
      h kv (List.mem_cons_self _ _)]
    simp

theorem foldl_scanStep_year_last (pre post : List (String × JsVal)) (k : String) (v : JsVal)
    (acc : YearRow) (hk : isYearKey k = true) (h : ∀ kv ∈ post, isYearKey kv.1 = false) :
    ((pre ++ (k, v) :: post).foldl scanStep acc).year = v := by
  rw [List.foldl_append, List.foldl_cons, foldl_scanStep_year_keep post _ h, scanStep_year]
  simp [hk]

theorem foldl_scanStep_total_last (pre post : List (String × JsVal)) (k : String) (v : JsVal)
    (acc : YearRow) (hk : isTotalKey k = true) (h : ∀ kv ∈ post, isTotalKey kv.1 = false) :
    ((pre ++ (k, v) :: post).foldl scanStep acc).total = v := by
  rw [List.foldl_append, List.foldl_cons, foldl_scanStep_total_keep post _ h, scanStep_total]
  simp [hk]

theorem foldl_scanStep_year_cases (entries : List (String × JsVal)) (acc : YearRow) :
    ((∀ kv ∈ entries, isYearKey kv.1 = false) ∧ (entries.foldl scanStep acc).year = acc.year) ∨
      ∃ kv ∈ entries, isYearKey kv.1 = true ∧ (entries.foldl scanStep acc).year = kv.2 := by
  induction entries generalizing acc with
  | nil => left; simp
  | cons kv rest ih =>
    rcases ih (scanStep acc kv) with ⟨hno, hy⟩ | ⟨x, hx, hxk, hxy⟩
    · by_cases hk : isYearKey kv.1 = true
      · right
        refine ⟨kv, List.mem_cons_self _ _, hk, ?_⟩
        rw [List.foldl_cons, hy, scanStep_year]
        simp [hk]
      · left
        refine ⟨?_, ?_⟩
        · intro x hx
          rcases List.mem_cons.mp hx with rfl | hx
          · simpa using hk
          · exact hno x hx
        · rw [List.foldl_cons, hy, scanStep_year]
          simp [hk]
    · right
      exact ⟨x, List.mem_cons_of_mem _ hx, hxk, by rw [List.foldl_cons, hxy]⟩

theorem foldl_scanStep_total_cases (entries : List (String × JsVal)) (acc : YearRow) :
    ((∀ kv ∈ entries, isTotalKey kv.1 = false) ∧
        (entries.foldl scanStep acc).total = acc.total) ∨
      ∃ kv ∈ entries, isTotalKey kv.1 = true ∧ (entries.foldl scanStep acc).total = kv.2 := by
  induction entries generalizing acc with
  | nil => left; simp
  | cons kv rest ih =>
    rcases ih (scanStep acc kv) with ⟨hno, hy⟩ | ⟨x, hx, hxk, hxy⟩
    · by_cases hk : isTotalKey kv.1 = true
      · right
        refine ⟨kv, List.mem_cons_self _ _, hk, ?_⟩
        rw [List.foldl_cons, hy, scanStep_total]
        simp [hk]
      · left
        refine ⟨?_, ?_⟩
        · intro x hx
          rcases List.mem_cons.mp hx with rfl | hx
          · simpa using hk
          · exact hno x hx
        · rw [List.foldl_cons, hy, scanStep_total]
          simp [hk]
    · right
      exact ⟨x, List.mem_cons_of_mem _ hx, hxk, by rw [List.foldl_cons, hxy]⟩

theorem isYearKey_iff (k : String) : isYearKey k = true ↔ ContainsIgnoringCase k "year" :=
  includes_toLowerCase_iff k "year"

theorem isTotalKey_iff (k : String) :
    isTotalKey k = true ↔ ContainsIgnoringCase k "count" ∨ ContainsIgnoringCase k "total" := by
  unfold isTotalKey
  rw [Bool.or_eq_true, includes_toLowerCase_iff, includes_toLowerCase_iff]

theorem filter_map_eq_filterMap (rows : List JsVal) :
    (rows.map mapRow).filter (fun x => !x.year.isNullish) =
      rows.filterMap (fun row => if (mapRow row).year.isNullish then none else some (mapRow row)) := by
  induction rows with
  | nil => rfl
  | cons r rest ih =>
    by_cases h : (mapRow r).year.isNullish = true
    · simp [List.filterMap_cons, h, ← ih]
    · simp [List.filterMap_cons, h, ← ih]

theorem mapRow_of_other (row : JsVal) (ha : row.isArray = false) (hk : row.isKeyed = false) :
    mapRow row = ⟨JsVal.null, JsVal.null⟩ := by
  cases row <;> simp_all [mapRow, JsVal.isArray, JsVal.isKeyed]

theorem normalizeByYear_append (pre post : List JsVal) :
    normalizeByYear (JsVal.arr (pre ++ post)) =
      normalizeByYear (JsVal.arr pre) ++ normalizeByYear (JsVal.arr post) := by
  simp [normalizeByYear]

theorem normalizeByYear_cons_drop (row : JsVal) (post : List JsVal)
    (h : (mapRow row).year.isNullish = true) :
    normalizeByYear (JsVal.arr (row :: post)) = normalizeByYear (JsVal.arr post) := by
  simp [normalizeByYear, h]

theorem normalizeByYear_cons_keep (row : JsVal) (post : List JsVal)
    (h : (mapRow row).year.isNullish = false) :
    normalizeByYear (JsVal.arr (row :: post)) = mapRow row :: normalizeByYear (JsVal.arr post) := by
  simp [normalizeByYear, h]

theorem mapRow_toJs (x : YearRow) : mapRow x.toJs = x := by
  have hy : isYearKey "year" = true := by decide
  have hy2 : isTotalKey "year" = false := by decide
  have ht : isYearKey "total" = false := by decide
  have ht2 : isTotalKey "total" = true := by decide
  cases x
  simp [YearRow.toJs, mapRow, scanEntries, scanStep, hy, hy2, ht, ht2]

theorem normalizeByYear_map_toJs (l : List YearRow) (h : ∀ x ∈ l, x.year.isNullish = false) :
    normalizeByYear (JsVal.arr (l.map YearRow.toJs)) = l := by
  induction l with
  | nil => rfl
  | cons x rest ih =>
    have hx : (mapRow x.toJs).year.isNullish = false := by
      rw [mapRow_toJs]
      exact h x (List.mem_cons_self _ _)
    rw [List.map_cons, normalizeByYear_cons_keep _ _ hx, mapRow_toJs,
      ih (fun y hy => h y (List.mem_cons_of_mem _ hy))]

theorem normalizeByYear_year (p : JsVal) : ∀ x ∈ normalizeByYear p, x.year.isNullish = false := by
  intro x hx
  unfold normalizeByYear at hx
  have := (List.mem_filter.mp hx).2
  simpa using this

theorem normalizeByYear_of_not_array (p : JsVal) (h : p.isArray = false) :
    normalizeByYear p = [] := by
  cases p <;> simp_all [normalizeByYear, JsVal.isArray]

theorem normalizeList_of_not_array (p : JsVal) (h : p.isArray = false) :
    normalizeList p = [] := by
  cases p <;> simp_all [normalizeList, JsVal.isArray]

/-! ## Lemmas on `Number(txt)` -/

theorem log2Fuel_le (fuel : Nat) : ∀ n k : Nat, n < 2 ^ (k + 1) → log2Fuel fuel n ≤ k := by
  induction fuel with
  | zero => intro n k _; simp [log2Fuel]
  | succ f ih =>
    intro n k h
    unfold log2Fuel
    split
    · exact Nat.zero_le _
    · rename_i h2
      cases k with
      | zero => omega
      | succ k =>
        have : n / 2 < 2 ^ (k + 1) := by
          rw [Nat.div_lt_iff_lt_mul (by norm_num)]
          rw [pow_succ] at h
          exact h
        have := ih (n / 2) k this
        omega

theorem roundHalfEven_intCast (z : ℤ) : roundHalfEven (z : ℚ) = z := by
  unfold roundHalfEven
  simp

theorem binade_natCast_le (n k : Nat) (h : n < 2 ^ (k + 1)) : binade (n : ℚ) ≤ k := by
  unfold binade
  have h1 : floorLog2 n ≤ k := log2Fuel_le n n k h
  have h2 : floorLog2 1 = 0 := rfl
  simp only [Rat.num_natCast, Int.natAbs_ofNat, Rat.den_natCast, h2]
  split <;> omega

theorem roundBinary64_natCast (n : Nat) (h : n < 2 ^ 53) : roundBinary64 (n : ℚ) = JsNum.fin n := by
  unfold roundBinary64
  by_cases h0 : (n : ℚ) = 0
  · simp [h0]
  · rw [if_neg h0]
    have hb : binade (n : ℚ) ≤ 52 := by exact_mod_cast binade_natCast_le n 52 h
    obtain ⟨k, hk⟩ : ∃ k : ℕ, max (binade (n : ℚ)) (-1022) - 52 = -(k : ℤ) := by
      refine ⟨(52 - max (binade (n : ℚ)) (-1022)).toNat, ?_⟩
      have : max (binade (n : ℚ)) (-1022) ≤ 52 := max_le hb (by norm_num)
      rw [Int.toNat_of_nonneg (by omega)]
      ring
    simp only [hk]
    have hu : (n : ℚ) / (2 : ℚ) ^ (-(k : ℤ)) = ((n * 2 ^ k : ℤ) : ℚ) := by
      rw [zpow_neg, div_inv_eq_mul, zpow_natCast]
      push_cast
      ring
    rw [hu, roundHalfEven_intCast]
    have hr : ((n * 2 ^ k : ℤ) : ℚ) * (2 : ℚ) ^ (-(k : ℤ)) = n := by
      rw [zpow_neg, zpow_natCast]
      push_cast
      field_simp
    rw [hr]
    have hlt : ¬ (2 : ℚ) ^ (1024 : ℤ) ≤ |(n : ℚ)| := by
      rw [abs_of_nonneg (Nat.cast_nonneg n), not_le]
      have h1 : (n : ℚ) < 2 ^ 53 := by exact_mod_cast h
      have h2 : (2 : ℚ) ^ 53 ≤ (2 : ℚ) ^ (1024 : ℤ) := by
        rw [show ((1024 : ℤ)) = ((1024 : ℕ) : ℤ) from rfl, zpow_natCast]
        exact pow_le_pow_right₀ (by norm_num) (by norm_num)
      exact lt_of_lt_of_le h1 h2
    rw [if_neg hlt]

theorem digitChar_facts (d : Nat) (h : d < 10) :
    digitValue (Nat.digitChar d) = some d ∧ Char.isDigit (Nat.digitChar d) = true ∧
      isStrWhiteSpaceChar (Nat.digitChar d) = false ∧
      Nat.digitChar d ≠ 'x' ∧ Nat.digitChar d ≠ 'X' ∧ Nat.digitChar d ≠ 'o' ∧
      Nat.digitChar d ≠ 'O' ∧ Nat.digitChar d ≠ 'b' ∧ Nat.digitChar d ≠ 'B' ∧
      Nat.digitChar d ≠ '+' ∧ Nat.digitChar d ≠ '-' ∧ Nat.digitChar d ≠ 'I' := by
  interval_cases d <;> decide

theorem digitStep_digitChar (acc d : Nat) (h : d < 10) :
    digitStep 10 acc (Nat.digitChar d) = some (acc * 10 + d) := by
  unfold digitStep
  rw [(digitChar_facts d h).1]
  simp [h]

theorem foldlM_digitStep (ds : List Nat) (h : ∀ d ∈ ds, d < 10) (acc : Nat) :
    (ds.map Nat.digitChar).foldlM (digitStep 10) acc =
      some (acc * 10 ^ ds.length + Nat.ofDigits 10 ds.reverse) := by
  induction ds generalizing acc with
  | nil => simp
  | cons d rest ih =>
    rw [List.map_cons, List.foldlM_cons, digitStep_digitChar acc d (h d (List.mem_cons_self _ _))]
    simp only [Option.some_bind, Option.bind_eq_bind]
    rw [ih (fun x hx => h x (List.mem_cons_of_mem _ hx))]
    simp only [List.reverse_cons, Nat.ofDigits_append, Nat.ofDigits_singleton, List.length_cons,
      List.length_reverse]
    congr 1
    ring

theorem dropWhile_eq_self_of_head {α : Type} (p : α → Bool) (l : List α)
    (h : ∀ a ∈ l, p a = false) : l.dropWhile p = l := by
  cases l with
  | nil => rfl
  | cons a rest => simp [List.dropWhile_cons, h a (List.mem_cons_self _ _)]

theorem trimChars_of_no_space (cs : List Char) (h : ∀ c ∈ cs, isStrWhiteSpaceChar c = false) :
    trimChars cs = cs := by
  unfold trimChars
  rw [dropWhile_eq_self_of_head _ cs h,
    dropWhile_eq_self_of_head _ cs.reverse (fun c hc => h c (List.mem_reverse.mp hc)),
    List.reverse_reverse]

theorem takeWhile_eq_self {α : Type} (p : α → Bool) (l : List α) (h : ∀ a ∈ l, p a = true) :
    l.takeWhile p = l ∧ l.dropWhile p = [] := by
  induction l with
  | nil => exact ⟨rfl, rfl⟩
  | cons a rest ih =>
    have ha := h a (List.mem_cons_self _ _)
    have := ih (fun x hx => h x (List.mem_cons_of_mem _ hx))
    simp [List.takeWhile_cons, List.dropWhile_cons, ha, this.1, this.2]

theorem nonDecimalInteger_digits (ds : List Nat) (h : ∀ d ∈ ds, d < 10) :
    nonDecimalInteger (ds.map Nat.digitChar) = none := by
  unfold nonDecimalInteger
  split
  · rename_i x rest heq
    match ds, h, heq with
    | [], _, heq => simp at heq
    | [_], _, heq => simp at heq
    | d0 :: d1 :: tl, h, heq =>
      simp only [List.map_cons, List.cons.injEq] at heq
      have hd := digitChar_facts d1 (h d1 (by simp))
      obtain ⟨-, -, -, h1, h2, h3, h4, h5, h6, -⟩ := hd
      rw [heq.2.1] at h1 h2 h3 h4 h5 h6
      simp [h1, h2, h3, h4, h5, h6]
  · rfl

theorem strDecimalLiteral_digits (d : Nat) (ds : List Nat) (h : d < 10) :
    strDecimalLiteral ((d :: ds).map Nat.digitChar) =
      unsignedDecimal ((d :: ds).map Nat.digitChar) := by
  obtain ⟨-, -, -, -, -, -, -, -, -, hp, hm, -⟩ := digitChar_facts d h
  rw [List.map_cons]
  unfold strDecimalLiteral
  split
  · rename_i heq
    simp only [List.cons.injEq] at heq
    exact absurd heq.1 hp
  · rename_i heq
    simp only [List.cons.injEq] at heq
    exact absurd heq.1 hm
  · rfl

theorem unsignedDecimalValue_digits (d : Nat) (ds : List Nat) (h : ∀ x ∈ d :: ds, x < 10) :
    unsignedDecimalValue ((d :: ds).map Nat.digitChar) =
      some ((Nat.ofDigits 10 (d :: ds).reverse : ℕ) : ℚ) := by
  have hall : ∀ c ∈ (d :: ds).map Nat.digitChar, Char.isDigit c = true := by
    intro c hc
    obtain ⟨x, hx, rfl⟩ := List.mem_map.mp hc
    exact (digitChar_facts x (h x hx)).2.1
  obtain ⟨ht, hd⟩ := takeWhile_eq_self Char.isDigit _ hall
  unfold unsignedDecimalValue
  simp only [ht, hd, List.append_nil]
  rw [foldlM_digitStep (d :: ds) h 0]
  simp [exponentPart]

theorem stringToNumber_decimalText (d : Nat) (ds : List Nat) (h : ∀ x ∈ d :: ds, x < 10) :
    stringToNumber (decimalText (d :: ds)) =
      roundBinary64 ((Nat.ofDigits 10 (d :: ds).reverse : ℕ) : ℚ) := by
  have hws : ∀ c ∈ (d :: ds).map Nat.digitChar, isStrWhiteSpaceChar c = false := by
    intro c hc
    obtain ⟨x, hx, rfl⟩ := List.mem_map.mp hc
    exact (digitChar_facts x (h x hx)).2.2.1
  have hI : (d :: ds).map Nat.digitChar ≠ "Infinity".data := by
    intro hc
    have := (digitChar_facts d (h d (List.mem_cons_self _ _))).2.2.2.2.2.2.2.2.2.2.2
    simp only [List.map_cons] at hc
    exact this (List.cons.inj hc).1
  unfold stringToNumber decimalText
  simp only [trimChars_of_no_space _ hws]
  rw [if_neg (by simp), nonDecimalInteger_digits _ h,
    strDecimalLiteral_digits d ds (h d (List.mem_cons_self _ _))]
  unfold unsignedDecimal
  rw [if_neg hI, unsignedDecimalValue_digits d ds h]
  rfl

theorem parseCount_eq (txt : String) :
    parseCount txt = if stringToNumber txt = JsNum.nan then JsNum.fin 0 else stringToNumber txt := by
  unfold parseCount
  cases hn : stringToNumber txt with
  | nan => simp [JsNum.isFalsy]
  | posInf => simp [JsNum.isFalsy]
  | negInf => simp [JsNum.isFalsy]
  | fin q =>
    by_cases hq : q = 0
    · simp [JsNum.isFalsy, hq]
    · simp [JsNum.isFalsy, hq]

theorem parseCount_decimalText (d : Nat) (ds : List Nat) (h : ∀ x ∈ d :: ds, x < 10)
    (hv : Nat.ofDigits 10 (d :: ds).reverse < 2 ^ 53) :
    parseCount (decimalText (d :: ds)) = JsNum.fin (Nat.ofDigits 10 (d :: ds).reverse : ℕ) := by
  rw [parseCount_eq, stringToNumber_decimalText d ds h, roundBinary64_natCast _ hv]
  simp

theorem toDigitsCore_eq_digits (fuel : Nat) :
    ∀ (n : Nat) (acc : List Char), 0 < n → n < fuel →
      Nat.toDigitsCore 10 fuel n acc = (Nat.digits 10 n).reverse.map Nat.digitChar ++ acc := by
  induction fuel with
  | zero => intro n acc _ h; omega
  | succ f ih =>
    intro n acc hpos hlt
    rw [Nat.digits_def' (by norm_num) hpos]
    unfold Nat.toDigitsCore
    by_cases h0 : n / 10 = 0
    · simp [h0]
    · simp only [h0, if_false]
      rw [ih (n / 10) _ (Nat.pos_of_ne_zero h0) (by omega)]
      simp

theorem toString_eq_decimalText (n : Nat) (h : 0 < n) :
    toString n = decimalText (Nat.digits 10 n).reverse := by
  show Nat.repr n = _
  unfold Nat.repr Nat.toDigits decimalText
  rw [toDigitsCore_eq_digits (n + 1) n [] h (Nat.lt_succ_self n)]
  simp [List.asString]

theorem parseCount_toString (n : Nat) (h : n < 2 ^ 53) : parseCount (toString n) = JsNum.fin n := by
  rcases Nat.eq_zero_or_pos n with rfl | hpos
  · have h0 : toString 0 = decimalText [0] := by decide
    rw [h0, parseCount_decimalText 0 [] (by decide) (by decide)]
    simp
  · rw [toString_eq_decimalText n hpos]
    have hne : (Nat.digits 10 n).reverse ≠ [] := by
      simpa using (Nat.digits_ne_nil_iff_ne_zero.mpr (Nat.pos_iff_ne_zero.mp hpos))
    obtain ⟨d, ds, hds⟩ := List.exists_cons_of_ne_nil hne
    have hall : ∀ x ∈ d :: ds, x < 10 := by
      intro x hx
      rw [← hds] at hx
      exact Nat.digits_lt_base (by norm_num) (List.mem_reverse.mp hx)
    have hval : Nat.ofDigits 10 (d :: ds).reverse = n := by
      rw [← hds, List.reverse_reverse, Nat.ofDigits_digits]
    rw [hds, parseCount_decimalText d ds hall (by rw [hval]; exact h), hval]

theorem parseCount_of_white_space (txt : String)
    (h : ∀ c ∈ txt.data, isStrWhiteSpaceChar c = true) : parseCount txt = JsNum.fin 0 := by
  have ht : trimChars txt.data = [] := by
    unfold trimChars
    rw [(takeWhile_eq_self _ _ h).2]
    rfl
  have hs : stringToNumber txt = JsNum.fin 0 := by
    unfold stringToNumber
    simp [ht]
  rw [parseCount_eq, hs]
  simp

/-! ## Numeric texts: the reader against the grammar -/

theorem isDigit_iff (c : Char) :
    c.isDigit = true ↔ ∃ d, digitValue c = some d ∧ d < 10 := by
  have h0 : '0'.val = 48 := rfl
  have h9 : '9'.val = 57 := rfl
  have ha : 'a'.val = 97 := rfl
  have hf : 'f'.val = 102 := rfl
  have hA : 'A'.val = 65 := rfl
  have hF : 'F'.val = 70 := rfl
  have hle : ∀ a b : Char, a ≤ b ↔ a.val.toNat ≤ b.val.toNat := fun a b => Iff.rfl
  have hn : ∀ a : Char, a.toNat = a.val.toNat := fun a => rfl
  unfold digitValue
  simp only [Char.isDigit, Bool.and_eq_true, decide_eq_true_eq, hle, hn, h0, h9, ha, hf, hA, hF]
  have e48 : (48 : UInt32).toNat = 48 := rfl
  have e57 : (57 : UInt32).toNat = 57 := rfl
  have e97 : (97 : UInt32).toNat = 97 := rfl
  have e102 : (102 : UInt32).toNat = 102 := rfl
  have e65 : (65 : UInt32).toNat = 65 := rfl
  have e70 : (70 : UInt32).toNat = 70 := rfl
  have hge : (c.val ≥ 48) ↔ 48 ≤ c.val.toNat := Iff.rfl
  have hle2 : (c.val ≤ 57) ↔ c.val.toNat ≤ 57 := Iff.rfl
  rw [hge, hle2, e48, e57, e97, e102, e65, e70]
  constructor
  · intro h
    rw [if_pos h]
    exact ⟨_, rfl, by omega⟩
  · rintro ⟨d, hd, hlt⟩
    by_contra hc
    rw [if_neg hc] at hd
    split_ifs at hd with h1 h2
    · simp only [Option.some.injEq] at hd
      omega
    · simp only [Option.some.injEq] at hd
      omega

theorem digitStep_of_digit (base acc : Nat) (c : Char) (d : Nat) (h : digitValue c = some d)
    (hd : d < base) : digitStep base acc c = some (acc * base + digitOf c) := by
  unfold digitStep digitOf
  rw [h]
  simp [hd]

theorem digitStep_some (base acc : Nat) (c : Char) (n : Nat)
    (h : digitStep base acc c = some n) :
    (∃ d, digitValue c = some d ∧ d < base) ∧ n = acc * base + digitOf c := by
  unfold digitStep at h
  cases hv : digitValue c with
  | none => rw [hv] at h; cases h
  | some d =>
    rw [hv] at h
    by_cases hd : d < base
    · simp only [hd, if_true, Option.some.injEq] at h
      exact ⟨⟨d, rfl, hd⟩, by rw [← h]; simp [digitOf, hv]⟩
    · simp [hd] at h

theorem digitsNat_cons (base : Nat) (c : Char) (cs : List Char) :
    digitsNat base (c :: cs) = digitOf c * base ^ cs.length + digitsNat base cs := by
  unfold digitsNat
  simp only [List.reverse_cons, List.map_append, List.map_cons, List.map_nil,
    Nat.ofDigits_append, Nat.ofDigits_singleton, List.length_map, List.length_reverse]
  ring

theorem digitsNat_append (base : Nat) (a b : List Char) :
    digitsNat base (a ++ b) = digitsNat base a * base ^ b.length + digitsNat base b := by
  induction a with
  | nil => simp [digitsNat]
  | cons c rest ih =>
    rw [List.cons_append, digitsNat_cons, digitsNat_cons, ih, List.length_append]
    ring

theorem foldlM_digits (base : Nat) (cs : List Char) (h : AllDigits base cs) (acc : Nat) :
    cs.foldlM (digitStep base) acc = some (acc * base ^ cs.length + digitsNat base cs) := by
  induction cs generalizing acc with
  | nil => simp [digitsNat]
  | cons c rest ih =>
    obtain ⟨d, hd, hlt⟩ := h c (List.mem_cons_self _ _)
    rw [List.foldlM_cons, digitStep_of_digit base acc c d hd hlt]
    simp only [Option.some_bind, Option.bind_eq_bind]
    rw [ih (fun x hx => h x (List.mem_cons_of_mem _ hx)), digitsNat_cons, List.length_cons]
    congr 1
    ring

theorem foldlM_some (base : Nat) (cs : List Char) (acc n : Nat)
    (h : cs.foldlM (digitStep base) acc = some n) : AllDigits base cs := by
  induction cs generalizing acc with
  | nil => intro c hc; cases hc
  | cons c rest ih =>
    rw [List.foldlM_cons] at h
    cases hs : digitStep base acc c with
    | none => rw [hs] at h; cases h
    | some m =>
      rw [hs] at h
      simp only [Option.some_bind, Option.bind_eq_bind] at h
      intro x hx
      rcases List.mem_cons.mp hx with rfl | hx
      · exact (digitStep_some base acc x m hs).1
      · exact ih m h x hx

theorem digitsValue_iff (base : Nat) (ds : List Char) (n : Nat) :
    digitsValue base ds = some n ↔ ds ≠ [] ∧ AllDigits base ds ∧ n = digitsNat base ds := by
  unfold digitsValue
  by_cases hne : ds = []
  · simp [hne]
  · rw [if_neg hne]
    constructor
    · intro h
      have hall := foldlM_some base ds 0 n h
      rw [foldlM_digits base ds hall 0] at h
      simp only [zero_mul, zero_add, Option.some.injEq] at h
      exact ⟨hne, hall, h.symm⟩
    · rintro ⟨_, hall, rfl⟩
      rw [foldlM_digits base ds hall 0]
      simp

theorem allDigits_iff (cs : List Char) :
    AllDigits 10 cs ↔ ∀ c ∈ cs, c.isDigit = true :=
  forall₂_congr (fun c _ => (isDigit_iff c).symm)

theorem allDigits_append (base : Nat) (a b : List Char) :
    AllDigits base (a ++ b) ↔ AllDigits base a ∧ AllDigits base b := by
  unfold AllDigits
  simp only [List.mem_append]
  constructor
  · intro h
    exact ⟨fun c hc => h c (Or.inl hc), fun c hc => h c (Or.inr hc)⟩
  · rintro ⟨h1, h2⟩ c (hc | hc)
    · exact h1 c hc
    · exact h2 c hc

theorem digit_ne_of_not_isDigit (c d : Char) (hc : c.isDigit = true) (hd : d.isDigit = false) :
    c ≠ d := by
  intro h
  rw [h, hd] at hc
  cases hc

theorem exponentPart_cons (c : Char) (rest : List Char) :
    exponentPart (c :: rest) =
      if c = 'e' ∨ c = 'E' then
        match rest with
        | '+' :: ds => (digitsValue 10 ds).map Int.ofNat
        | '-' :: ds => (digitsValue 10 ds).map (fun n => -Int.ofNat n)
        | ds => (digitsValue 10 ds).map Int.ofNat
      else none :=
  rfl

theorem exponentPart_iff (e : List Char) (x : ℤ) :
    exponentPart e = some x ↔ ExponentText e x := by
  constructor
  · intro h
    match e, h with
    | [], h =>
      simp only [exponentPart, Option.some.injEq] at h
      rw [← h]
      exact ExponentText.absent
    | c :: rest, h =>
      rw [exponentPart_cons] at h
      by_cases hc : c = 'e' ∨ c = 'E'
      · rw [if_pos hc] at h
        split at h
        · rename_i ds
          obtain ⟨n, hn, rfl⟩ := Option.map_eq_some'.mp h
          obtain ⟨h1, h2, rfl⟩ := (digitsValue_iff 10 ds n).mp hn
          exact ExponentText.plus c ds hc h1 h2
        · rename_i ds
          obtain ⟨n, hn, rfl⟩ := Option.map_eq_some'.mp h
          obtain ⟨h1, h2, rfl⟩ := (digitsValue_iff 10 ds n).mp hn
          exact ExponentText.minus c ds hc h1 h2
        · obtain ⟨n, hn, rfl⟩ := Option.map_eq_some'.mp h
          obtain ⟨h1, h2, rfl⟩ := (digitsValue_iff 10 rest n).mp hn
          exact ExponentText.unsigned c rest hc h1 h2
      · rw [if_neg hc] at h
        cases h
  · intro h
    cases h with
    | absent => rfl
    | unsigned c ds hc hne hall =>
      obtain ⟨d, tl, rfl⟩ := List.exists_cons_of_ne_nil hne
      have hd : d.isDigit = true := (allDigits_iff _).mp hall d (List.mem_cons_self _ _)
      have hp : d ≠ '+' := digit_ne_of_not_isDigit d '+' hd (by decide)
      have hm : d ≠ '-' := digit_ne_of_not_isDigit d '-' hd (by decide)
      rw [exponentPart_cons, if_pos hc]
      split
      · rename_i heq
        exact absurd (List.cons.inj heq).1 hp
      · rename_i heq
        exact absurd (List.cons.inj heq).1 hm
      · rw [(digitsValue_iff 10 _ _).mpr ⟨hne, hall, rfl⟩]
        rfl
    | plus c ds hc hne hall =>
      rw [exponentPart_cons, if_pos hc]
      simp only [(digitsValue_iff 10 _ _).mpr ⟨hne, hall, rfl⟩]
      rfl
    | minus c ds hc hne hall =>
      rw [exponentPart_cons, if_pos hc]
      simp only [(digitsValue_iff 10 _ _).mpr ⟨hne, hall, rfl⟩]
      rfl

theorem span_of_stop {α : Type} (p : α → Bool) (a b : List α) (ha : ∀ x ∈ a, p x = true)
    (hb : ∀ x, b.head? = some x → p x = false) :
    (a ++ b).takeWhile p = a ∧ (a ++ b).dropWhile p = b := by
  induction a with
  | nil =>
    cases b with
    | nil => exact ⟨rfl, rfl⟩
    | cons c t =>
      have hc := hb c rfl
      simp [List.takeWhile_cons, List.dropWhile_cons, hc]
  | cons x rest ih =>
    have hx := ha x (List.mem_cons_self _ _)
    have := ih (fun y hy => ha y (List.mem_cons_of_mem _ hy))
    simp [List.takeWhile_cons, List.dropWhile_cons, hx, this.1, this.2]

theorem fractionOf_not_point (r : List Char) :
    (∀ c, r.head? = some c → c ≠ '.') →
    (match r with
      | '.' :: t => t.takeWhile Char.isDigit
      | _ => []) = [] ∧
    (match r with
      | '.' :: t => t.dropWhile Char.isDigit
      | _ => r) = r := by
  intro h
  constructor
  · split
    · exact absurd rfl (h '.' rfl)
    · rfl
  · split
    · exact absurd rfl (h '.' rfl)
    · rfl

theorem unsignedDecimalValue_whole (ip r : List Char) (hip : ∀ c ∈ ip, c.isDigit = true)
    (hr : ∀ c, r.head? = some c → c.isDigit = false ∧ c ≠ '.') :
    unsignedDecimalValue (ip ++ r) =
      if ip = [] then none
      else (exponentPart r).map (fun e => (digitsNat 10 ip : ℚ) * (10 : ℚ) ^ e) := by
  obtain ⟨ht, hd⟩ := span_of_stop Char.isDigit ip r hip (fun c hc => (hr c hc).1)
  obtain ⟨hf, hr2⟩ := fractionOf_not_point r (fun c hc => (hr c hc).2)
  unfold unsignedDecimalValue
  simp only [ht, hd, hf, hr2, List.append_nil, and_true]
  by_cases hne : ip = []
  · simp [hne]
  · rw [if_neg hne, if_neg hne, foldlM_digits 10 ip ((allDigits_iff ip).mpr hip) 0]
    cases exponentPart r <;> simp

theorem unsignedDecimalValue_point (ip fp r : List Char) (hip : ∀ c ∈ ip, c.isDigit = true)
    (hfp : ∀ c ∈ fp, c.isDigit = true) (hr : ∀ c, r.head? = some c → c.isDigit = false) :
    unsignedDecimalValue (ip ++ '.' :: (fp ++ r)) =
      if ip = [] ∧ fp = [] then none
      else (exponentPart r).map (fun e =>
        ((digitsNat 10 ip : ℚ) + (digitsNat 10 fp : ℚ) / (10 : ℚ) ^ fp.length) * (10 : ℚ) ^ e) := by
  obtain ⟨ht, hd⟩ := span_of_stop Char.isDigit ip ('.' :: (fp ++ r)) hip
    (fun c hc => by
      simp only [List.head?_cons, Option.some.injEq] at hc
      rw [← hc]
      decide)
  obtain ⟨ht2, hd2⟩ := span_of_stop Char.isDigit fp r hfp hr
  unfold unsignedDecimalValue
  simp only [ht, hd, ht2, hd2]
  by_cases hne : ip = [] ∧ fp = []
  · simp [hne]
  · rw [if_neg hne, if_neg hne, foldlM_digits 10 (ip ++ fp)
      ((allDigits_iff _).mpr (fun c hc => (List.mem_append.mp hc).elim (hip c) (hfp c))) 0]
    cases exponentPart r with
    | none => simp
    | some e =>
      simp only [zero_mul, zero_add, Option.map_some', Option.some.injEq]
      rw [digitsNat_append]
      push_cast
      rw [zpow_sub₀ (by norm_num : (10 : ℚ) ≠ 0), zpow_natCast]
      field_simp

theorem exponentText_head (e : List Char) (x : ℤ) (h : ExponentText e x) :
    ∀ c, e.head? = some c → c.isDigit = false ∧ c ≠ '.' := by
  intro c hc
  have key : c = 'e' ∨ c = 'E' := by
    cases h with
    | absent => cases hc
    | unsigned c' ds h1 _ _ =>
      simp only [List.head?_cons, Option.some.injEq] at hc
      rw [← hc]
      exact h1
    | plus c' ds h1 _ _ =>
      simp only [List.head?_cons, Option.some.injEq] at hc
      rw [← hc]
      exact h1
    | minus c' ds h1 _ _ =>
      simp only [List.head?_cons, Option.some.injEq] at hc
      rw [← hc]
      exact h1
  rcases key with rfl | rfl <;> exact ⟨by decide, by decide⟩

theorem head_dropWhile {α : Type} (p : α → Bool) (l : List α) :
    ∀ x, (l.dropWhile p).head? = some x → p x = false := by
  induction l with
  | nil => intro x hx; cases hx
  | cons a rest ih =>
    intro x hx
    by_cases ha : p a = true
    · rw [List.dropWhile_cons, if_pos ha] at hx
      exact ih x hx
    · rw [List.dropWhile_cons, if_neg ha] at hx
      simp only [List.head?_cons, Option.some.injEq] at hx
      rw [← hx]
      simpa using ha

theorem unsignedDecimalValue_complete (cs : List Char) (q : ℚ) (h : UnsignedDecimalText cs q) :
    unsignedDecimalValue cs = some q := by
  cases h with
  | whole ip e x hne hip he =>
    rw [unsignedDecimalValue_whole ip e ((allDigits_iff ip).mp hip) (exponentText_head e x he),
      if_neg hne, (exponentPart_iff e x).mpr he]
    rfl
  | point ip fp e x hne hip hfp he =>
    rw [unsignedDecimalValue_point ip fp e ((allDigits_iff ip).mp hip)
      ((allDigits_iff fp).mp hfp) (fun c hc => (exponentText_head e x he c hc).1),
      if_neg (by tauto), (exponentPart_iff e x).mpr he]
    rfl

theorem unsignedDecimalValue_sound (cs : List Char) (q : ℚ)
    (h : unsignedDecimalValue cs = some q) : UnsignedDecimalText cs q := by
  have hcs : cs.takeWhile Char.isDigit ++ cs.dropWhile Char.isDigit = cs :=
    List.takeWhile_append_dropWhile _ _
  have hip : ∀ c ∈ cs.takeWhile Char.isDigit, c.isDigit = true :=
    fun c hc => List.mem_takeWhile_imp hc
  have hhead := head_dropWhile Char.isDigit cs
  generalize cs.takeWhile Char.isDigit = ip at hcs hip
  generalize hr1 : cs.dropWhile Char.isDigit = r1 at hcs hhead
  by_cases hdot : ∃ t, r1 = '.' :: t
  · obtain ⟨t, rfl⟩ := hdot
    have ht : t.takeWhile Char.isDigit ++ t.dropWhile Char.isDigit = t :=
      List.takeWhile_append_dropWhile _ _
    have hfp : ∀ c ∈ t.takeWhile Char.isDigit, c.isDigit = true :=
      fun c hc => List.mem_takeWhile_imp hc
    have hhead2 := head_dropWhile Char.isDigit t
    generalize t.takeWhile Char.isDigit = fp at ht hfp
    generalize t.dropWhile Char.isDigit = r2 at ht hhead2
    subst ht
    subst hcs
    rw [unsignedDecimalValue_point ip fp r2 hip hfp hhead2] at h
    by_cases hne : ip = [] ∧ fp = []
    · rw [if_pos hne] at h
      cases h
    · rw [if_neg hne] at h
      obtain ⟨e, he, rfl⟩ := Option.map_eq_some'.mp h
      exact UnsignedDecimalText.point ip fp r2 e (by tauto) ((allDigits_iff ip).mpr hip)
        ((allDigits_iff fp).mpr hfp) ((exponentPart_iff r2 e).mp he)
  · have hnd : ∀ c, r1.head? = some c → c.isDigit = false ∧ c ≠ '.' := by
      intro c hc
      refine ⟨hhead c hc, ?_⟩
      rintro rfl
      cases r1 with
      | nil => cases hc
      | cons a t =>
        simp only [List.head?_cons, Option.some.injEq] at hc
        exact hdot ⟨t, by rw [hc]⟩
    subst hcs
    rw [unsignedDecimalValue_whole ip r1 hip hnd] at h
    by_cases hne : ip = []
    · rw [if_pos hne] at h
      cases h
    · rw [if_neg hne] at h
      obtain ⟨e, he, rfl⟩ := Option.map_eq_some'.mp h
      exact UnsignedDecimalText.whole ip r1 e hne ((allDigits_iff ip).mpr hip)
        ((exponentPart_iff r1 e).mp he)

theorem unsignedDecimalText_head (cs : List Char) (q : ℚ) (h : UnsignedDecimalText cs q) :
    ∃ c t, cs = c :: t ∧ (c.isDigit = true ∨ c = '.') := by
  cases h with
  | whole ip e x hne hip he =>
    obtain ⟨c, t, rfl⟩ := List.exists_cons_of_ne_nil hne
    exact ⟨c, t ++ e, rfl, Or.inl ((allDigits_iff _).mp hip c (List.mem_cons_self _ _))⟩
  | point ip fp e x hne hip hfp he =>
    cases ip with
    | nil => exact ⟨'.', fp ++ e, rfl, Or.inr rfl⟩
    | cons c t =>
      exact ⟨c, t ++ '.' :: (fp ++ e), rfl,
        Or.inl ((allDigits_iff _).mp hip c (List.mem_cons_self _ _))⟩

theorem roundHalfEven_neg (x : ℚ) : roundHalfEven (-x) = -roundHalfEven x := by
  by_cases hd : (⌊x⌋ : ℚ) = x
  · rw [← hd, ← Int.cast_neg, roundHalfEven_intCast, roundHalfEven_intCast]
  · have h1 : (⌊x⌋ : ℚ) < x := lt_of_le_of_ne (Int.floor_le x) hd
    have h2 : x < (⌊x⌋ : ℚ) + 1 := Int.lt_floor_add_one x
    have hf : ⌊-x⌋ = -⌊x⌋ - 1 := by
      rw [Int.floor_eq_iff]
      push_cast
      constructor <;> linarith
    unfold roundHalfEven
    simp only [hf]
    push_cast
    by_cases ha : x - ⌊x⌋ < 1 / 2
    · have hb : ¬ (-x - (-(⌊x⌋ : ℚ) - 1) < 1 / 2) := by linarith
      have hc : (1 : ℚ) / 2 < -x - (-(⌊x⌋ : ℚ) - 1) := by linarith
      rw [if_pos ha, if_neg hb, if_pos hc]
      ring
    · by_cases hb : (1 : ℚ) / 2 < x - ⌊x⌋
      · have hc : -x - (-(⌊x⌋ : ℚ) - 1) < 1 / 2 := by linarith
        rw [if_neg ha, if_pos hb, if_pos hc]
        ring
      · have hc : ¬ (-x - (-(⌊x⌋ : ℚ) - 1) < 1 / 2) := by linarith
        have hc2 : ¬ ((1 : ℚ) / 2 < -x - (-(⌊x⌋ : ℚ) - 1)) := by linarith
        rw [if_neg ha, if_neg hb, if_neg hc, if_neg hc2]
        by_cases he : ⌊x⌋ % 2 = 0
        · have he2 : ¬ ((-⌊x⌋ - 1) % 2 = 0) := by omega
          rw [if_pos he, if_neg he2]
          ring
        · have he2 : (-⌊x⌋ - 1) % 2 = 0 := by omega
          rw [if_neg he, if_pos he2]
          ring

theorem binade_neg (q : ℚ) : binade (-q) = binade q := by
  unfold binade
  simp only [Rat.neg_num, Int.natAbs_neg, Rat.neg_den, abs_neg]

theorem roundBinary64_neg (q : ℚ) : roundBinary64 (-q) = (roundBinary64 q).neg := by
  unfold roundBinary64
  by_cases h0 : q = 0
  · simp [h0, JsNum.neg]
  · have h0' : ¬ (-q = 0) := by simpa using h0
    rw [if_neg h0, if_neg h0']
    simp only [binade_neg, neg_div, roundHalfEven_neg, Int.cast_neg, neg_mul, abs_neg]
    by_cases hov : (2 : ℚ) ^ (1024 : ℤ) ≤
        |(roundHalfEven (q / (2 : ℚ) ^ (max (binade q) (-1022) - 52)) : ℚ) *
          (2 : ℚ) ^ (max (binade q) (-1022) - 52)|
    · rw [if_pos hov, if_pos hov]
      by_cases hq : q < 0
      · have : ¬ (-q < 0) := by linarith
        rw [if_pos hq, if_neg this]
        rfl
      · have : -q < 0 := by
          rcases lt_or_gt_of_ne h0 with h | h
          · exact absurd h hq
          · linarith
        rw [if_neg hq, if_pos this]
        rfl
    · rw [if_neg hov, if_neg hov]
      rfl

theorem roundBinary64_ne_nan (q : ℚ) : roundBinary64 q ≠ JsNum.nan := by
  unfold roundBinary64
  by_cases h0 : q = 0
  · simp [h0]
  · rw [if_neg h0]
    dsimp only
    split_ifs <;> simp

theorem nonDecimalInteger_some (cs : List Char) (n : Nat) (h : nonDecimalInteger cs = some n) :
    ∃ x ds, cs = '0' :: x :: ds ∧
      (((x = 'x' ∨ x = 'X') ∧ digitsValue 16 ds = some n) ∨
        ((x = 'o' ∨ x = 'O') ∧ digitsValue 8 ds = some n) ∨
        ((x = 'b' ∨ x = 'B') ∧ digitsValue 2 ds = some n)) := by
  unfold nonDecimalInteger at h
  split at h
  · rename_i x ds
    refine ⟨x, ds, rfl, ?_⟩
    split_ifs at h with h1 h2 h3
    · exact Or.inl ⟨h1, h⟩
    · exact Or.inr (Or.inl ⟨h2, h⟩)
    · exact Or.inr (Or.inr ⟨h3, h⟩)
  · cases h

theorem nonDecimalInteger_cons (x : Char) (ds : List Char) :
    nonDecimalInteger ('0' :: x :: ds) =
      if x = 'x' ∨ x = 'X' then digitsValue 16 ds
      else if x = 'o' ∨ x = 'O' then digitsValue 8 ds
      else if x = 'b' ∨ x = 'B' then digitsValue 2 ds
      else none :=
  rfl

theorem nonDecimalInteger_of_head (c : Char) (t : List Char) (hc : c ≠ '0') :
    nonDecimalInteger (c :: t) = none := by
  unfold nonDecimalInteger
  split
  · rename_i heq
    exact absurd (List.cons.inj heq).1 hc
  · rfl

theorem nonDecimalInteger_sound (cs : List Char) (n : Nat) (h : nonDecimalInteger cs = some n) :
    NumericText cs (JsNum.fin (n : ℚ)) := by
  obtain ⟨x, ds, rfl, h | h | h⟩ := nonDecimalInteger_some cs n h
  · obtain ⟨h1, h2, rfl⟩ := (digitsValue_iff 16 ds n).mp h.2
    exact NumericText.hex x ds h.1 h1 h2
  · obtain ⟨h1, h2, rfl⟩ := (digitsValue_iff 8 ds n).mp h.2
    exact NumericText.octal x ds h.1 h1 h2
  · obtain ⟨h1, h2, rfl⟩ := (digitsValue_iff 2 ds n).mp h.2
    exact NumericText.binary x ds h.1 h1 h2

theorem nonDecimalInteger_excludes (cs : List Char) (n : Nat)
    (h : nonDecimalInteger cs = some n) : unsignedDecimalValue cs = none := by
  obtain ⟨x, ds, rfl, hx⟩ := nonDecimalInteger_some cs n h
  have hx' : x = 'x' ∨ x = 'X' ∨ x = 'o' ∨ x = 'O' ∨ x = 'b' ∨ x = 'B' := by
    rcases hx with h | h | h <;> rcases h.1 with h | h <;> simp [h]
  have hnd : x.isDigit = false ∧ x ≠ '.' ∧ ¬ (x = 'e' ∨ x = 'E') := by
    rcases hx' with h | h | h | h | h | h <;> subst h <;> decide
  have := unsignedDecimalValue_whole ['0'] (x :: ds) (by decide)
    (fun c hc => by
      simp only [List.head?_cons, Option.some.injEq] at hc
      rw [← hc]
      exact ⟨hnd.1, hnd.2.1⟩)
  rw [show '0' :: x :: ds = ['0'] ++ x :: ds from rfl, this, exponentPart_cons,
    if_neg hnd.2.2]
  rfl

theorem unsignedDecimal_complete (cs : List Char) (q : ℚ) (h : UnsignedDecimalText cs q) :
    unsignedDecimal cs = some (roundBinary64 q) := by
  obtain ⟨c, t, rfl, hc⟩ := unsignedDecimalText_head cs q h
  have hI : c :: t ≠ "Infinity".data := by
    intro heq
    have : c = 'I' := (List.cons.inj heq).1
    subst this
    rcases hc with hc | hc <;> revert hc <;> decide
  unfold unsignedDecimal
  rw [if_neg hI, unsignedDecimalValue_complete _ q h]
  rfl

theorem unsignedDecimal_sound (cs : List Char) (v : JsNum) (h : unsignedDecimal cs = some v) :
    (cs = "Infinity".data ∧ v = JsNum.posInf) ∨
      ∃ q, UnsignedDecimalText cs q ∧ v = roundBinary64 q := by
  unfold unsignedDecimal at h
  by_cases hI : cs = "Infinity".data
  · rw [if_pos hI] at h
    exact Or.inl ⟨hI, (Option.some.inj h).symm⟩
  · rw [if_neg hI] at h
    obtain ⟨q, hq, rfl⟩ := Option.map_eq_some'.mp h
    exact Or.inr ⟨q, unsignedDecimalValue_sound cs q hq, rfl⟩

theorem strDecimalLiteral_plus (r : List Char) :
    strDecimalLiteral ('+' :: r) = unsignedDecimal r :=
  rfl

theorem strDecimalLiteral_minus (r : List Char) :
    strDecimalLiteral ('-' :: r) = (unsignedDecimal r).map JsNum.neg :=
  rfl

theorem strDecimalLiteral_of_head (cs : List Char) (h : ∀ c, cs.head? = some c → c ≠ '+' ∧ c ≠ '-') :
    strDecimalLiteral cs = unsignedDecimal cs := by
  unfold strDecimalLiteral
  split
  · exact absurd rfl (h '+' rfl).1
  · exact absurd rfl (h '-' rfl).2
  · rfl

theorem strDecimalLiteral_sound (cs : List Char) (v : JsNum)
    (h : strDecimalLiteral cs = some v) : ∃ w, NumericText cs w ∧ v = numberValue w := by
  by_cases hp : ∃ r, cs = '+' :: r
  · obtain ⟨r, rfl⟩ := hp
    rw [strDecimalLiteral_plus] at h
    rcases unsignedDecimal_sound r v h with ⟨rfl, rfl⟩ | ⟨q, hq, rfl⟩
    · exact ⟨JsNum.posInf, NumericText.plusInfinity, rfl⟩
    · exact ⟨JsNum.fin q, NumericText.plus r q hq, rfl⟩
  · by_cases hm : ∃ r, cs = '-' :: r
    · obtain ⟨r, rfl⟩ := hm
      rw [strDecimalLiteral_minus] at h
      obtain ⟨u, hu, rfl⟩ := Option.map_eq_some'.mp h
      rcases unsignedDecimal_sound r u hu with ⟨rfl, rfl⟩ | ⟨q, hq, rfl⟩
      · exact ⟨JsNum.negInf, NumericText.minusInfinity, rfl⟩
      · exact ⟨JsNum.fin (-q), NumericText.minus r q hq, (roundBinary64_neg q).symm⟩
    · have hh : ∀ c, cs.head? = some c → c ≠ '+' ∧ c ≠ '-' := by
        intro c hc
        cases cs with
        | nil => cases hc
        | cons a t =>
          simp only [List.head?_cons, Option.some.injEq] at hc
          subst hc
          exact ⟨fun e => hp ⟨t, by rw [e]⟩, fun e => hm ⟨t, by rw [e]⟩⟩
      rw [strDecimalLiteral_of_head cs hh] at h
      rcases unsignedDecimal_sound cs v h with ⟨rfl, rfl⟩ | ⟨q, hq, rfl⟩
      · exact ⟨JsNum.posInf, NumericText.infinity, rfl⟩
      · exact ⟨JsNum.fin q, NumericText.decimal cs q hq, rfl⟩

theorem unsignedDecimal_infinity : unsignedDecimal "Infinity".data = some JsNum.posInf := by
  unfold unsignedDecimal
  rw [if_pos rfl]

theorem numericText_complete (cs : List Char) (w : JsNum) (h : NumericText cs w) :
    cs ≠ [] ∧
      (match nonDecimalInteger cs with
        | some n => roundBinary64 n
        | none => (strDecimalLiteral cs).getD JsNum.nan) = numberValue w := by
  cases h with
  | decimal cs q hq =>
    obtain ⟨c, t, rfl, hc⟩ := unsignedDecimalText_head cs q hq
    refine ⟨by simp, ?_⟩
    have hnd : nonDecimalInteger (c :: t) = none := by
      cases hn : nonDecimalInteger (c :: t) with
      | none => rfl
      | some n =>
        have := nonDecimalInteger_excludes _ n hn
        rw [unsignedDecimalValue_complete _ q hq] at this
        cases this
    have hs : strDecimalLiteral (c :: t) = unsignedDecimal (c :: t) := by
      apply strDecimalLiteral_of_head
      intro a ha
      simp only [List.head?_cons, Option.some.injEq] at ha
      subst ha
      rcases hc with hc | hc
      · exact ⟨digit_ne_of_not_isDigit _ _ hc (by decide),
          digit_ne_of_not_isDigit _ _ hc (by decide)⟩
      · subst hc
        exact ⟨by decide, by decide⟩
    rw [hnd, hs, unsignedDecimal_complete _ q hq]
    rfl
  | plus cs q hq =>
    refine ⟨by simp, ?_⟩
    rw [nonDecimalInteger_of_head '+' cs (by decide), strDecimalLiteral_plus,
      unsignedDecimal_complete _ q hq]
    rfl
  | minus cs q hq =>
    refine ⟨by simp, ?_⟩
    rw [nonDecimalInteger_of_head '-' cs (by decide), strDecimalLiteral_minus,
      unsignedDecimal_complete _ q hq]
    exact (roundBinary64_neg q).symm
  | infinity => exact ⟨by decide, rfl⟩
  | plusInfinity => exact ⟨by simp, rfl⟩
  | minusInfinity => exact ⟨by simp, rfl⟩
  | hex x ds hx hne hall =>
    refine ⟨by simp, ?_⟩
    rw [nonDecimalInteger_cons, if_pos hx, (digitsValue_iff 16 ds _).mpr ⟨hne, hall, rfl⟩]
    rfl
  | octal x ds hx hne hall =>
    refine ⟨by simp, ?_⟩
    have h1 : ¬ (x = 'x' ∨ x = 'X') := by rcases hx with h | h <;> subst h <;> decide
    rw [nonDecimalInteger_cons, if_neg h1, if_pos hx,
      (digitsValue_iff 8 ds _).mpr ⟨hne, hall, rfl⟩]
    rfl
  | binary x ds hx hne hall =>
    refine ⟨by simp, ?_⟩
    have h1 : ¬ (x = 'x' ∨ x = 'X') := by rcases hx with h | h <;> subst h <;> decide
    have h2 : ¬ (x = 'o' ∨ x = 'O') := by rcases hx with h | h <;> subst h <;> decide
    rw [nonDecimalInteger_cons, if_neg h1, if_neg h2, if_pos hx,
      (digitsValue_iff 2 ds _).mpr ⟨hne, hall, rfl⟩]
    rfl

theorem numberValue_ne_nan (cs : List Char) (w : JsNum) (h : NumericText cs w) :
    numberValue w ≠ JsNum.nan := by
  cases h <;> first
    | exact roundBinary64_ne_nan _
    | (intro hc; cases hc)

theorem stringToNumber_of_numeric (txt : String) (w : JsNum)
    (h : NumericText (trimChars txt.data) w) : stringToNumber txt = numberValue w := by
  obtain ⟨hne, hv⟩ := numericText_complete _ w h
  unfold stringToNumber
  simp only [hne, if_false]
  exact hv

theorem numeric_of_stringToNumber (txt : String) (hne : trimChars txt.data ≠ [])
    (h : stringToNumber txt ≠ JsNum.nan) : ∃ w, NumericText (trimChars txt.data) w := by
  unfold stringToNumber at h
  simp only [hne, if_false] at h
  cases hn : nonDecimalInteger (trimChars txt.data) with
  | some n => exact ⟨_, nonDecimalInteger_sound _ n hn⟩
  | none =>
    rw [hn] at h
    cases hs : strDecimalLiteral (trimChars txt.data) with
    | none =>
      rw [hs] at h
      exact absurd rfl h
    | some v =>
      obtain ⟨w, hw, _⟩ := strDecimalLiteral_sound _ v hs
      exact ⟨w, hw⟩

/-! ## Rounding to binary64 -/

theorem log2Fuel_bounds (fuel : Nat) :
    ∀ n : Nat, 0 < n → n < 2 ^ fuel →
      2 ^ log2Fuel fuel n ≤ n ∧ n < 2 ^ (log2Fuel fuel n + 1) := by
  induction fuel with
  | zero => intro n h0 h; simp at h; omega
  | succ f ih =>
    intro n h0 h
    unfold log2Fuel
    by_cases h2 : n < 2
    · rw [if_pos h2]
      simp
      omega
    · rw [if_neg h2]
      have hlt : n / 2 < 2 ^ f := by
        rw [Nat.div_lt_iff_lt_mul (by norm_num)]
        rw [pow_succ] at h
        exact h
      obtain ⟨h3, h4⟩ := ih (n / 2) (by omega) hlt
      rw [pow_succ, pow_succ]
      rw [pow_succ] at h4
      constructor <;> omega

theorem floorLog2_bounds (n : Nat) (h : 0 < n) :
    2 ^ floorLog2 n ≤ n ∧ n < 2 ^ (floorLog2 n + 1) :=
  log2Fuel_bounds n n h (Nat.lt_two_pow n)

theorem abs_eq_natAbs_div (q : ℚ) : |q| = (q.num.natAbs : ℚ) / (q.den : ℚ) := by
  have hden : (0 : ℚ) < q.den := by exact_mod_cast q.den_pos
  conv_lhs => rw [← Rat.num_div_den q]
  rw [abs_div, abs_of_pos hden, Nat.cast_natAbs, Int.cast_abs]

theorem binade_bounds (q : ℚ) (hq : q ≠ 0) :
    (2 : ℚ) ^ binade q ≤ |q| ∧ |q| < (2 : ℚ) ^ (binade q + 1) := by
  have hN : 0 < q.num.natAbs := Int.natAbs_pos.mpr (Rat.num_ne_zero.mpr hq)
  have hD : 0 < q.den := q.den_pos
  obtain ⟨a1, a2⟩ := floorLog2_bounds _ hN
  obtain ⟨b1, b2⟩ := floorLog2_bounds _ hD
  have a1' : (2 : ℚ) ^ (floorLog2 q.num.natAbs : ℤ) ≤ (q.num.natAbs : ℚ) := by
    rw [zpow_natCast]; exact_mod_cast a1
  have a2' : (q.num.natAbs : ℚ) < (2 : ℚ) ^ ((floorLog2 q.num.natAbs : ℤ) + 1) := by
    rw [show ((floorLog2 q.num.natAbs : ℤ) + 1) = ((floorLog2 q.num.natAbs + 1 : ℕ) : ℤ) by
      push_cast; ring, zpow_natCast]
    exact_mod_cast a2
  have b1' : (2 : ℚ) ^ (floorLog2 q.den : ℤ) ≤ (q.den : ℚ) := by
    rw [zpow_natCast]; exact_mod_cast b1
  have b2' : (q.den : ℚ) < (2 : ℚ) ^ ((floorLog2 q.den : ℤ) + 1) := by
    rw [show ((floorLog2 q.den : ℤ) + 1) = ((floorLog2 q.den + 1 : ℕ) : ℤ) by
      push_cast; ring, zpow_natCast]
    exact_mod_cast b2
  have hDq : (0 : ℚ) < q.den := by exact_mod_cast hD
  have two : (2 : ℚ) ≠ 0 := by norm_num
  have hpos : ∀ z : ℤ, (0 : ℚ) < (2 : ℚ) ^ z := fun z => zpow_pos (by norm_num) z
  have habs := abs_eq_natAbs_div q
  unfold binade
  simp only
  generalize (floorLog2 q.num.natAbs : ℤ) = a at a1' a2'
  generalize (floorLog2 q.den : ℤ) = b at b1' b2'
  generalize (q.num.natAbs : ℚ) = N at a1' a2' habs
  generalize (q.den : ℚ) = D at b1' b2' habs hDq
  have upper : |q| < (2 : ℚ) ^ (a - b + 1) := by
    rw [habs, div_lt_iff₀ hDq]
    calc N < (2 : ℚ) ^ (a + 1) := a2'
      _ = (2 : ℚ) ^ (a - b + 1) * (2 : ℚ) ^ b := by rw [← zpow_add₀ two]; congr 1; ring
      _ ≤ (2 : ℚ) ^ (a - b + 1) * D := by
        exact mul_le_mul_of_nonneg_left b1' (le_of_lt (hpos _))
  have lower : (2 : ℚ) ^ (a - b - 1) ≤ |q| := by
    rw [habs, le_div_iff₀ hDq]
    calc (2 : ℚ) ^ (a - b - 1) * D ≤ (2 : ℚ) ^ (a - b - 1) * (2 : ℚ) ^ (b + 1) := by
          exact mul_le_mul_of_nonneg_left (le_of_lt b2') (le_of_lt (hpos _))
      _ = (2 : ℚ) ^ a := by rw [← zpow_add₀ two]; congr 1; ring
      _ ≤ N := a1'
  split_ifs with h
  · exact ⟨h, upper⟩
  · refine ⟨lower, ?_⟩
    rw [show a - b - 1 + 1 = a - b by ring]
    exact lt_of_not_le h

theorem roundHalfEven_cases (x : ℚ) :
    (roundHalfEven x = ⌊x⌋ ∧ x - ⌊x⌋ ≤ 1 / 2) ∨
      (roundHalfEven x = ⌊x⌋ + 1 ∧ 1 / 2 ≤ x - ⌊x⌋) := by
  unfold roundHalfEven
  simp only
  split_ifs with h1 h2 h3
  · exact Or.inl ⟨rfl, le_of_lt h1⟩
  · exact Or.inr ⟨rfl, le_of_lt h2⟩
  · exact Or.inl ⟨rfl, le_of_not_lt h2⟩
  · exact Or.inr ⟨rfl, le_of_not_lt h1⟩

theorem roundHalfEven_nearest (x : ℚ) (z : ℤ) :
    |x - roundHalfEven x| ≤ |x - z| := by
  have h1 : (⌊x⌋ : ℚ) ≤ x := Int.floor_le x
  have h2 : x < (⌊x⌋ : ℚ) + 1 := Int.lt_floor_add_one x
  have hz : (z : ℚ) ≤ ⌊x⌋ ∨ (⌊x⌋ : ℚ) + 1 ≤ z := by
    rcases le_or_lt z ⌊x⌋ with h | h
    · exact Or.inl (by exact_mod_cast h)
    · exact Or.inr (by exact_mod_cast h)
  have ha := le_abs_self (x - z)
  have hb := neg_le_abs (x - z)
  rcases roundHalfEven_cases x with ⟨hr, hd⟩ | ⟨hr, hd⟩
  · rw [hr, abs_of_nonneg (by linarith)]
    rcases hz with hz | hz <;> linarith
  · rw [hr]
    push_cast
    rw [abs_of_nonpos (by linarith)]
    rcases hz with hz | hz <;> linarith

theorem le_roundHalfEven (x : ℚ) (z : ℤ) (h : (z : ℚ) ≤ x) : z ≤ roundHalfEven x := by
  have hf : z ≤ ⌊x⌋ := Int.le_floor.mpr h
  rcases roundHalfEven_cases x with ⟨hr, _⟩ | ⟨hr, _⟩ <;> rw [hr] <;> omega

theorem roundHalfEven_le (x : ℚ) (z : ℤ) (h : x ≤ (z : ℚ)) : roundHalfEven x ≤ z := by
  have h1 : (⌊x⌋ : ℚ) ≤ x := Int.floor_le x
  rcases roundHalfEven_cases x with ⟨hr, _⟩ | ⟨hr, hd⟩
  · rw [hr]
    exact_mod_cast le_trans h1 h
  · rw [hr]
    have : (⌊x⌋ : ℚ) < z := by linarith
    have : ⌊x⌋ < z := by exact_mod_cast this
    omega

theorem two_zpow_add (a b : ℤ) : (2 : ℚ) ^ (a + b) = (2 : ℚ) ^ a * (2 : ℚ) ^ b :=
  zpow_add₀ (by norm_num) a b

theorem two_zpow_pos (a : ℤ) : (0 : ℚ) < (2 : ℚ) ^ a :=
  zpow_pos (by norm_num) a

theorem two_zpow_mono (a b : ℤ) (h : a ≤ b) : (2 : ℚ) ^ a ≤ (2 : ℚ) ^ b :=
  zpow_le_zpow_right₀ (by norm_num) h

theorem two_zpow_intCast (a : ℤ) (h : 0 ≤ a) : ∃ j : ℤ, (2 : ℚ) ^ a = (j : ℚ) := by
  refine ⟨2 ^ a.toNat, ?_⟩
  conv_lhs => rw [← Int.toNat_of_nonneg h]
  rw [zpow_natCast]
  push_cast
  rfl

theorem roundBinary64_pos_fin (q r : ℚ) (hq : 0 < q) (h : roundBinary64 q = JsNum.fin r) :
    IsBinary64 r ∧ ∀ d, IsBinary64 d → |q - r| ≤ |q - d| := by
  have h0 : q ≠ 0 := ne_of_gt hq
  obtain ⟨hb1, hb2⟩ := binade_bounds q h0
  rw [abs_of_pos hq] at hb1 hb2
  unfold roundBinary64 at h
  rw [if_neg h0] at h
  simp only at h
  have hm1 : binade q ≤ max (binade q) (-1022) := le_max_left _ _
  have hm2 : (-1022 : ℤ) ≤ max (binade q) (-1022) := le_max_right _ _
  have hm3 : max (binade q) (-1022) = binade q ∨ max (binade q) (-1022) = -1022 :=
    max_choice _ _
  generalize max (binade q) (-1022) = b' at h hm1 hm2 hm3
  generalize binade q = b at hb1 hb2 hm1 hm3
  have hu := two_zpow_pos (b' - 52)
  have hx0 : 0 < q / (2 : ℚ) ^ (b' - 52) := div_pos hq hu
  have hqx : q = q / (2 : ℚ) ^ (b' - 52) * (2 : ℚ) ^ (b' - 52) := by field_simp
  generalize q / (2 : ℚ) ^ (b' - 52) = x at h hx0 hqx
  have hk0 : 0 ≤ roundHalfEven x := le_roundHalfEven x 0 (by simpa using le_of_lt hx0)
  have hnear := roundHalfEven_nearest x
  have hle := roundHalfEven_le x
  have hge := le_roundHalfEven x
  generalize roundHalfEven x = k at h hk0 hnear hle hge
  have hk0' : (0 : ℚ) ≤ k := by exact_mod_cast hk0
  rw [abs_of_nonneg (mul_nonneg hk0' (le_of_lt hu))] at h
  by_cases hov : (2 : ℚ) ^ (1024 : ℤ) ≤ k * (2 : ℚ) ^ (b' - 52)
  · rw [if_pos hov] at h
    split_ifs at h
  rw [if_neg hov] at h
  have hr : r = k * (2 : ℚ) ^ (b' - 52) := (JsNum.fin.inj h).symm
  have hov' : (k : ℚ) * (2 : ℚ) ^ (b' - 52) < (2 : ℚ) ^ (1024 : ℤ) := lt_of_not_le hov
  have hx53 : x < (2 : ℚ) ^ (53 : ℤ) := by
    have : q < (2 : ℚ) ^ (53 : ℤ) * (2 : ℚ) ^ (b' - 52) := by
      calc q < (2 : ℚ) ^ (b + 1) := hb2
        _ ≤ (2 : ℚ) ^ (b' + 1) := two_zpow_mono _ _ (by omega)
        _ = (2 : ℚ) ^ (53 : ℤ) * (2 : ℚ) ^ (b' - 52) := by
          rw [← two_zpow_add]; congr 1; ring
    rw [hqx] at this
    exact lt_of_mul_lt_mul_right this (le_of_lt hu)
  have hk53 : k ≤ 2 ^ 53 := hle (2 ^ 53) (by
    have e : ((2 ^ 53 : ℤ) : ℚ) = (2 : ℚ) ^ (53 : ℤ) := by norm_num
    rw [e]
    exact le_of_lt hx53)
  have hk52 : b' = b → (2 : ℤ) ^ 52 ≤ k := by
    intro hbb
    apply hge
    have h1 : (2 : ℚ) ^ (52 : ℤ) * (2 : ℚ) ^ (b' - 52) ≤ x * (2 : ℚ) ^ (b' - 52) := by
      rw [← hqx, ← two_zpow_add, hbb]
      rw [show (52 : ℤ) + (b - 52) = b by ring]
      exact hb1
    have := le_of_mul_le_mul_right h1 hu
    have e : ((2 ^ 52 : ℤ) : ℚ) = (2 : ℚ) ^ (52 : ℤ) := by norm_num
    rw [e]
    exact this
  have hb1023 : b' ≤ 1023 := by
    by_contra hc
    have hbb : b' = b := by
      rcases hm3 with h | h
      · exact h
      · omega
    have h52 : ((2 : ℤ) ^ 52 : ℤ) ≤ k := hk52 hbb
    have h52' : (2 : ℚ) ^ (52 : ℤ) ≤ (k : ℚ) := by
      have e : (2 : ℚ) ^ (52 : ℤ) = ((2 ^ 52 : ℤ) : ℚ) := by norm_num
      rw [e]
      exact_mod_cast h52
    have : (2 : ℚ) ^ (1024 : ℤ) ≤ k * (2 : ℚ) ^ (b' - 52) := by
      calc (2 : ℚ) ^ (1024 : ℤ) ≤ (2 : ℚ) ^ b' := two_zpow_mono _ _ (by omega)
        _ = (2 : ℚ) ^ (52 : ℤ) * (2 : ℚ) ^ (b' - 52) := by
          rw [← two_zpow_add]; congr 1; ring
        _ ≤ k * (2 : ℚ) ^ (b' - 52) := mul_le_mul_of_nonneg_right h52' (le_of_lt hu)
    exact hov this
  constructor
  · rcases lt_or_eq_of_le hk53 with hlt | heq
    · exact ⟨k, b' - 52, by rw [abs_of_nonneg hk0]; exact hlt, by omega, by omega, hr⟩
    · have hb1022 : b' ≤ 1022 := by
        by_contra hc
        have hb : b' = 1023 := by omega
        apply hov
        rw [heq, hb]
        norm_num
      refine ⟨2 ^ 52, b' - 51, by norm_num, by omega, by omega, ?_⟩
      rw [hr, heq]
      push_cast
      rw [show b' - 51 = 1 + (b' - 52) by ring, two_zpow_add]
      norm_num
      ring
  · rintro d ⟨m, e, hm, he1, he2, hd⟩
    have hqr : |q - r| = |x - k| * (2 : ℚ) ^ (b' - 52) := by
      rw [hr]
      conv_lhs => rw [hqx]
      rw [← sub_mul, abs_mul, abs_of_pos hu]
    by_cases hcase : b' - 52 ≤ e
    · obtain ⟨j, hj⟩ := two_zpow_intCast (e - (b' - 52)) (by omega)
      have hdj : d = ((m * j : ℤ) : ℚ) * (2 : ℚ) ^ (b' - 52) := by
        rw [hd]
        push_cast
        rw [← hj, mul_assoc, ← two_zpow_add]
        congr 2
        ring
      have hqd : |q - d| = |x - ((m * j : ℤ) : ℚ)| * (2 : ℚ) ^ (b' - 52) := by
        rw [hdj]
        conv_lhs => rw [hqx]
        rw [← sub_mul, abs_mul, abs_of_pos hu]
      rw [hqr, hqd]
      exact mul_le_mul_of_nonneg_right (hnear (m * j)) (le_of_lt hu)
    · have hbb : b' = b := by
        rcases hm3 with h | h
        · exact h
        · omega
      have hm' : |(m : ℚ)| < (2 : ℚ) ^ (53 : ℤ) := by
        have : ((|m| : ℤ) : ℚ) < ((2 ^ 53 : ℤ) : ℚ) := by exact_mod_cast hm
        rw [Int.cast_abs] at this
        have e : (2 : ℚ) ^ (53 : ℤ) = ((2 ^ 53 : ℤ) : ℚ) := by norm_num
        rw [e]
        exact this
      have hdlt : |d| ≤ (2 : ℚ) ^ b' := by
        rw [hd, abs_mul, abs_of_pos (two_zpow_pos e)]
        calc |(m : ℚ)| * (2 : ℚ) ^ e ≤ (2 : ℚ) ^ (53 : ℤ) * (2 : ℚ) ^ e :=
              mul_le_mul_of_nonneg_right (le_of_lt hm') (le_of_lt (two_zpow_pos e))
          _ = (2 : ℚ) ^ (53 + e) := by rw [two_zpow_add]
          _ ≤ (2 : ℚ) ^ b' := two_zpow_mono _ _ (by omega)
      have hgrid : (2 : ℚ) ^ b' = ((2 ^ 52 : ℤ) : ℚ) * (2 : ℚ) ^ (b' - 52) := by
        have e : ((2 ^ 52 : ℤ) : ℚ) = (2 : ℚ) ^ (52 : ℤ) := by norm_num
        rw [e, ← two_zpow_add]
        congr 1
        ring
      have hqg : |q - (2 : ℚ) ^ b'| = |x - ((2 ^ 52 : ℤ) : ℚ)| * (2 : ℚ) ^ (b' - 52) := by
        rw [hgrid]
        conv_lhs => rw [hqx]
        rw [← sub_mul, abs_mul, abs_of_pos hu]
      have hqb : (2 : ℚ) ^ b' ≤ q := by rw [hbb]; exact hb1
      calc |q - r| = |x - k| * (2 : ℚ) ^ (b' - 52) := hqr
        _ ≤ |x - ((2 ^ 52 : ℤ) : ℚ)| * (2 : ℚ) ^ (b' - 52) :=
          mul_le_mul_of_nonneg_right (hnear (2 ^ 52)) (le_of_lt hu)
        _ = |q - (2 : ℚ) ^ b'| := hqg.symm
        _ = q - (2 : ℚ) ^ b' := abs_of_nonneg (by linarith)
        _ ≤ q - d := by linarith [le_abs_self d]
        _ ≤ |q - d| := le_abs_self _

theorem roundHalfEven_ge_of_half (x : ℚ) (M : ℤ) (hM : M % 2 = 0) (h : (M : ℚ) - 1 / 2 ≤ x) :
    M ≤ roundHalfEven x := by
  have h1 : (⌊x⌋ : ℚ) ≤ x := Int.floor_le x
  have hf : M - 1 ≤ ⌊x⌋ := by
    apply Int.le_floor.mpr
    push_cast
    linarith
  rcases lt_or_eq_of_le hf with hlt | heq
  · rcases roundHalfEven_cases x with ⟨hr, _⟩ | ⟨hr, _⟩ <;> rw [hr] <;> omega
  · have hd : (1 : ℚ) / 2 ≤ x - ⌊x⌋ := by
      rw [← heq]
      push_cast
      linarith
    unfold roundHalfEven
    simp only
    have hodd : ¬ (⌊x⌋ % 2 = 0) := by omega
    rw [if_neg (not_lt.mpr hd)]
    split_ifs <;> omega

theorem roundHalfEven_dist (x : ℚ) : |x - roundHalfEven x| ≤ 1 / 2 := by
  have h1 : (⌊x⌋ : ℚ) ≤ x := Int.floor_le x
  have h2 : x < (⌊x⌋ : ℚ) + 1 := Int.lt_floor_add_one x
  rcases roundHalfEven_cases x with ⟨hr, hd⟩ | ⟨hr, hd⟩
  · rw [hr, abs_of_nonneg (by linarith)]
    exact hd
  · rw [hr]
    push_cast
    rw [abs_of_nonpos (by linarith)]
    linarith

theorem roundBinary64_pos_overflow (q : ℚ) (hq : 0 < q) :
    roundBinary64 q ≠ JsNum.negInf ∧
      (roundBinary64 q = JsNum.posInf ↔
        (2 : ℚ) ^ (1024 : ℤ) - (2 : ℚ) ^ (970 : ℤ) ≤ q) := by
  have h0 : q ≠ 0 := ne_of_gt hq
  obtain ⟨hb1, hb2⟩ := binade_bounds q h0
  rw [abs_of_pos hq] at hb1 hb2
  unfold roundBinary64
  rw [if_neg h0]
  simp only [if_neg (not_lt.mpr (le_of_lt hq))]
  have hm1 : binade q ≤ max (binade q) (-1022) := le_max_left _ _
  have hm2 : (-1022 : ℤ) ≤ max (binade q) (-1022) := le_max_right _ _
  have hm3 : max (binade q) (-1022) = binade q ∨ max (binade q) (-1022) = -1022 :=
    max_choice _ _
  generalize max (binade q) (-1022) = b' at hm1 hm2 hm3
  generalize binade q = b at hb1 hb2 hm1 hm3
  have hu := two_zpow_pos (b' - 52)
  have hx0 : 0 < q / (2 : ℚ) ^ (b' - 52) := div_pos hq hu
  have hqx : q = q / (2 : ℚ) ^ (b' - 52) * (2 : ℚ) ^ (b' - 52) := by field_simp
  generalize q / (2 : ℚ) ^ (b' - 52) = x at hx0 hqx
  have hk0 : 0 ≤ roundHalfEven x := le_roundHalfEven x 0 (by simpa using le_of_lt hx0)
  have hdist := roundHalfEven_dist x
  have hge := le_roundHalfEven x
  have hhalf := roundHalfEven_ge_of_half x
  generalize roundHalfEven x = k at hk0 hdist hge hhalf
  have hk0' : (0 : ℚ) ≤ k := by exact_mod_cast hk0
  rw [abs_of_nonneg (mul_nonneg hk0' (le_of_lt hu))]
  have e52 : ((2 ^ 52 : ℤ) : ℚ) = (2 : ℚ) ^ (52 : ℤ) := by norm_num
  have e53 : ((2 ^ 53 : ℤ) : ℚ) = (2 : ℚ) ^ (53 : ℤ) := by norm_num
  have hbig : b' = b → 1024 ≤ b → (2 : ℚ) ^ (1024 : ℤ) ≤ k * (2 : ℚ) ^ (b' - 52) := by
    intro hbb h1024
    have h1 : (2 : ℚ) ^ (52 : ℤ) * (2 : ℚ) ^ (b' - 52) ≤ x * (2 : ℚ) ^ (b' - 52) := by
      rw [← hqx, ← two_zpow_add, hbb]
      rw [show (52 : ℤ) + (b - 52) = b by ring]
      exact hb1
    have h2 : (2 : ℚ) ^ (52 : ℤ) ≤ x := le_of_mul_le_mul_right h1 hu
    have h3 : (2 ^ 52 : ℤ) ≤ k := hge _ (by rw [e52]; exact h2)
    have h4 : (2 : ℚ) ^ (52 : ℤ) ≤ (k : ℚ) := by rw [← e52]; exact_mod_cast h3
    calc (2 : ℚ) ^ (1024 : ℤ) ≤ (2 : ℚ) ^ b' := two_zpow_mono _ _ (by omega)
      _ = (2 : ℚ) ^ (52 : ℤ) * (2 : ℚ) ^ (b' - 52) := by
        rw [← two_zpow_add]; congr 1; ring
      _ ≤ k * (2 : ℚ) ^ (b' - 52) := mul_le_mul_of_nonneg_right h4 (le_of_lt hu)
  constructor
  · split_ifs <;> simp
  · constructor
    · intro h
      by_cases hov : (2 : ℚ) ^ (1024 : ℤ) ≤ k * (2 : ℚ) ^ (b' - 52)
      · by_cases hb : b' ≤ 1023
        · have hu2 : (2 : ℚ) ^ (b' - 52) ≤ (2 : ℚ) ^ (971 : ℤ) := two_zpow_mono _ _ (by omega)
          have hx : (k : ℚ) - 1 / 2 ≤ x := by
            have := neg_abs_le (x - k)
            linarith
          have h970 : (2 : ℚ) ^ (971 : ℤ) = 2 * (2 : ℚ) ^ (970 : ℤ) := by norm_num
          have hmul : ((k : ℚ) - 1 / 2) * (2 : ℚ) ^ (b' - 52) ≤ x * (2 : ℚ) ^ (b' - 52) :=
            mul_le_mul_of_nonneg_right hx (le_of_lt hu)
          rw [← hqx] at hmul
          nlinarith
        · have hbb : b' = b := by
            rcases hm3 with h | h
            · exact h
            · omega
          have : (2 : ℚ) ^ (1024 : ℤ) ≤ q :=
            le_trans (two_zpow_mono _ _ (by omega)) hb1
          have := two_zpow_pos 970
          linarith
      · rw [if_neg hov] at h
        cases h
    · intro h
      have hb1023 : 1023 ≤ b := by
        by_contra hc
        have : q < (2 : ℚ) ^ (1023 : ℤ) := lt_of_lt_of_le hb2 (two_zpow_mono _ _ (by omega))
        have e : (2 : ℚ) ^ (1024 : ℤ) - (2 : ℚ) ^ (970 : ℤ) ≥ (2 : ℚ) ^ (1023 : ℤ) := by
          norm_num
        linarith
      have hbb : b' = b := by
        rcases hm3 with h | h
        · exact h
        · omega
      have hov : (2 : ℚ) ^ (1024 : ℤ) ≤ k * (2 : ℚ) ^ (b' - 52) := by
        by_cases h1024 : 1024 ≤ b
        · exact hbig hbb h1024
        · have hb : b' = 1023 := by omega
          subst hb
          have hu971 : (2 : ℚ) ^ ((1023 : ℤ) - 52) = (2 : ℚ) ^ (971 : ℤ) := by norm_num
          rw [hu971] at hqx hu ⊢
          have hx : ((2 ^ 53 : ℤ) : ℚ) - 1 / 2 ≤ x := by
            rw [e53]
            have h1 : ((2 : ℚ) ^ (53 : ℤ) - 1 / 2) * (2 : ℚ) ^ (971 : ℤ) ≤
                x * (2 : ℚ) ^ (971 : ℤ) := by
              rw [← hqx]
              have : ((2 : ℚ) ^ (53 : ℤ) - 1 / 2) * (2 : ℚ) ^ (971 : ℤ) =
                  (2 : ℚ) ^ (1024 : ℤ) - (2 : ℚ) ^ (970 : ℤ) := by norm_num
              rw [this]
              exact h
            exact le_of_mul_le_mul_right h1 hu
          have hk : (2 ^ 53 : ℤ) ≤ k := hhalf _ (by norm_num) hx
          have hk' : (2 : ℚ) ^ (53 : ℤ) ≤ (k : ℚ) := by rw [← e53]; exact_mod_cast hk
          calc (2 : ℚ) ^ (1024 : ℤ) = (2 : ℚ) ^ (53 : ℤ) * (2 : ℚ) ^ (971 : ℤ) := by norm_num
            _ ≤ k * (2 : ℚ) ^ (971 : ℤ) := mul_le_mul_of_nonneg_right hk' (le_of_lt hu)
      rw [if_pos hov]

theorem isBinary64_neg (r : ℚ) (h : IsBinary64 r) : IsBinary64 (-r) := by
  obtain ⟨m, e, hm, h1, h2, rfl⟩ := h
  exact ⟨-m, e, by rw [abs_neg]; exact hm, h1, h2, by push_cast; ring⟩

theorem roundBinary64_eq_neg (q : ℚ) : roundBinary64 q = (roundBinary64 (-q)).neg := by
  have := roundBinary64_neg (-q)
  rwa [neg_neg] at this

theorem roundBinary64_fin (q r : ℚ) (h : roundBinary64 q = JsNum.fin r) :
    IsBinary64 r ∧ ∀ d, IsBinary64 d → |q - r| ≤ |q - d| := by
  rcases lt_trichotomy q 0 with hq | hq | hq
  · rw [roundBinary64_eq_neg] at h
    cases hv : roundBinary64 (-q) with
    | nan => rw [hv] at h; cases h
    | posInf => rw [hv] at h; cases h
    | negInf => rw [hv] at h; cases h
    | fin s =>
      rw [hv] at h
      have hrs : r = -s := (JsNum.fin.inj h).symm
      obtain ⟨hs, hn⟩ := roundBinary64_pos_fin (-q) s (by linarith) hv
      subst hrs
      refine ⟨isBinary64_neg s hs, fun d hd => ?_⟩
      have := hn (-d) (isBinary64_neg d hd)
      have e1 : |q - -s| = |-q - s| := by rw [← abs_neg]; congr 1; ring
      have e2 : |q - d| = |-q - -d| := by rw [← abs_neg]; congr 1; ring
      rw [e1, e2]
      exact this
  · subst hq
    have : roundBinary64 0 = JsNum.fin 0 := by simp [roundBinary64]
    rw [this] at h
    have hr : r = 0 := (JsNum.fin.inj h).symm
    subst hr
    refine ⟨⟨0, 0, by norm_num, by norm_num, by norm_num, by norm_num⟩, fun d _ => ?_⟩
    simp
  · exact roundBinary64_pos_fin q r hq h

theorem roundBinary64_posInf_iff (q : ℚ) :
    roundBinary64 q = JsNum.posInf ↔ (2 : ℚ) ^ (1024 : ℤ) - (2 : ℚ) ^ (970 : ℤ) ≤ q := by
  have hT : (0 : ℚ) < (2 : ℚ) ^ (1024 : ℤ) - (2 : ℚ) ^ (970 : ℤ) := by norm_num
  rcases lt_trichotomy q 0 with hq | hq | hq
  · constructor
    · intro h
      rw [roundBinary64_eq_neg] at h
      have hne := (roundBinary64_pos_overflow (-q) (by linarith)).1
      cases hv : roundBinary64 (-q) with
      | nan => rw [hv] at h; cases h
      | posInf => rw [hv] at h; cases h
      | negInf => exact absurd hv hne
      | fin s => rw [hv] at h; cases h
    · intro h
      linarith
  · subst hq
    constructor
    · intro h
      have : roundBinary64 0 = JsNum.fin 0 := by simp [roundBinary64]
      rw [this] at h
      cases h
    · intro h
      linarith
  · exact (roundBinary64_pos_overflow q hq).2

theorem roundBinary64_negInf_iff (q : ℚ) :
    roundBinary64 q = JsNum.negInf ↔ q ≤ -((2 : ℚ) ^ (1024 : ℤ) - (2 : ℚ) ^ (970 : ℤ)) := by
  have hT : (0 : ℚ) < (2 : ℚ) ^ (1024 : ℤ) - (2 : ℚ) ^ (970 : ℤ) := by norm_num
  rcases lt_trichotomy q 0 with hq | hq | hq
  · rw [roundBinary64_eq_neg]
    have := (roundBinary64_pos_overflow (-q) (by linarith)).2
    constructor
    · intro h
      have hp : roundBinary64 (-q) = JsNum.posInf := by
        cases hv : roundBinary64 (-q) with
        | nan => rw [hv] at h; cases h
        | posInf => rfl
        | negInf => rw [hv] at h; cases h
        | fin s => rw [hv] at h; cases h
      have := this.mp hp
      linarith
    · intro h
      rw [this.mpr (by linarith)]
      rfl
  · subst hq
    constructor
    · intro h
      have : roundBinary64 0 = JsNum.fin 0 := by simp [roundBinary64]
      rw [this] at h
      cases h
    · intro h
      linarith
  · constructor
    · intro h
      exact absurd h (roundBinary64_pos_overflow q hq).1
    · intro h
      linarith

theorem roundBinary64_intCast (z : ℤ) (h : |z| < 2 ^ 53) :
    roundBinary64 (z : ℚ) = JsNum.fin z := by
  rcases le_or_lt 0 z with hz | hz
  · obtain ⟨n, rfl⟩ := Int.eq_ofNat_of_zero_le hz
    have hn : n < 2 ^ 53 := by
      rw [abs_of_nonneg hz] at h
      exact_mod_cast h
    have := roundBinary64_natCast n hn
    simpa using this
  · obtain ⟨n, hn⟩ := Int.eq_ofNat_of_zero_le (by omega : 0 ≤ -z)
    have hz' : z = -(n : ℤ) := by omega
    subst hz'
    have hn' : n < 2 ^ 53 := by
      rw [abs_neg, abs_of_nonneg (Int.natCast_nonneg n)] at h
      exact_mod_cast h
    have := roundBinary64_natCast n hn'
    push_cast
    rw [roundBinary64_neg, this]
    rfl

/-! ## The response normaliser -/

/-- C1: for a sequence payload the by-year normaliser returns, in the
original order, one row per element whose resolved year is neither `null` nor
`undefined`, and drops the other elements; `[y, t]` resolves to
`{year: y, total: t}`; a keyed object takes its year from a key that contains
"year" and its total from a key that contains "count" or "total", case
ignored, a field staying `null` when no key matches; and the payload
`[[2020, 5], {"Year": 2021, "totalCount": 3}, "garbage"]` normalises to
`[{year: 2020, total: 5}, {year: 2021, total: 3}]`. -/
theorem normalizeByYear_sequence :
    (∀ rows : List JsVal, normalizeByYear (JsVal.arr rows) =
      rows.filterMap
        (fun row => if (mapRow row).year.isNullish then none else some (mapRow row))) ∧
    (∀ y t : JsVal, mapRow (JsVal.arr [y, t]) = ⟨y, t⟩) ∧
    (∀ entries : List (String × JsVal),
      (∃ kv ∈ entries, ContainsIgnoringCase kv.1 "year" ∧
          (mapRow (JsVal.obj entries)).year = kv.2) ∨
        ((∀ kv ∈ entries, ¬ ContainsIgnoringCase kv.1 "year") ∧
          (mapRow (JsVal.obj entries)).year = JsVal.null)) ∧
    (∀ entries : List (String × JsVal),
      (∃ kv ∈ entries,
          (ContainsIgnoringCase kv.1 "count" ∨ ContainsIgnoringCase kv.1 "total") ∧
          (mapRow (JsVal.obj entries)).total = kv.2) ∨
        ((∀ kv ∈ entries,
            ¬ (ContainsIgnoringCase kv.1 "count" ∨ ContainsIgnoringCase kv.1 "total")) ∧
          (mapRow (JsVal.obj entries)).total = JsVal.null)) ∧
    normalizeByYear (JsVal.arr
        [JsVal.arr [JsVal.num (JsNum.fin 2020), JsVal.num (JsNum.fin 5)],
          JsVal.obj [("Year", JsVal.num (JsNum.fin 2021)),
            ("totalCount", JsVal.num (JsNum.fin 3))],
          JsVal.str "garbage"]) =
      [⟨JsVal.num (JsNum.fin 2020), JsVal.num (JsNum.fin 5)⟩,
        ⟨JsVal.num (JsNum.fin 2021), JsVal.num (JsNum.fin 3)⟩] := by
  refine ⟨fun rows => filter_map_eq_filterMap rows, fun _ _ => rfl, ?_, ?_, rfl⟩
  · intro entries
    rcases foldl_scanStep_year_cases entries ⟨JsVal.null, JsVal.null⟩ with ⟨hno, hy⟩ | ⟨x, hx, hk, hy⟩
    · right
      refine ⟨fun kv hkv hc => ?_, hy⟩
      have := (isYearKey_iff kv.1).mpr hc
      rw [hno kv hkv] at this
      exact Bool.false_ne_true this
    · left
      exact ⟨x, hx, (isYearKey_iff x.1).mp hk, hy⟩
  · intro entries
    rcases foldl_scanStep_total_cases entries ⟨JsVal.null, JsVal.null⟩ with ⟨hno, hy⟩ | ⟨x, hx, hk, hy⟩
    · right
      refine ⟨fun kv hkv hc => ?_, hy⟩
      have := (isTotalKey_iff kv.1).mpr hc
      rw [hno kv hkv] at this
      exact Bool.false_ne_true this
    · left
      exact ⟨x, hx, (isTotalKey_iff x.1).mp hk, hy⟩

/-- C2, as the claim states it, fails: in `{"year": 2020, "birthYear": 1999}`
both keys contain "year" and the year field is `1999`, the value of the later
key, not `2020`; in `{"count": 5, "total": 9}` both keys supply the total and
the total field is `9`, not `5`. -/
theorem first_matching_key_overwritten :
    isYearKey "year" = true ∧ isYearKey "birthYear" = true ∧
    (mapRow (JsVal.obj [("year", JsVal.num (JsNum.fin 2020)),
      ("birthYear", JsVal.num (JsNum.fin 1999))])).year = JsVal.num (JsNum.fin 1999) ∧
    (mapRow (JsVal.obj [("year", JsVal.num (JsNum.fin 2020)),
      ("birthYear", JsVal.num (JsNum.fin 1999))])).year ≠ JsVal.num (JsNum.fin 2020) ∧
    isTotalKey "count" = true ∧ isTotalKey "total" = true ∧
    (mapRow (JsVal.obj [("count", JsVal.num (JsNum.fin 5)),
      ("total", JsVal.num (JsNum.fin 9))])).total = JsVal.num (JsNum.fin 9) ∧
    (mapRow (JsVal.obj [("count", JsVal.num (JsNum.fin 5)),
      ("total", JsVal.num (JsNum.fin 9))])).total ≠ JsVal.num (JsNum.fin 5) := by
  refine ⟨by decide, by decide, rfl, ?_, by decide, by decide, rfl, ?_⟩
  · have h : (mapRow (JsVal.obj [("year", JsVal.num (JsNum.fin 2020)),
        ("birthYear", JsVal.num (JsNum.fin 1999))])).year = JsVal.num (JsNum.fin 1999) := rfl
    rw [h]
    intro hc
    injection hc with hc
    injection hc with hc
    norm_num at hc
  · have h : (mapRow (JsVal.obj [("count", JsVal.num (JsNum.fin 5)),
        ("total", JsVal.num (JsNum.fin 9))])).total = JsVal.num (JsNum.fin 9) := rfl
    rw [h]
    intro hc
    injection hc with hc
    injection hc with hc
    norm_num at hc

/-- C2, amended: in the key scan of a keyed object the last matching key wins
per field: the year field is the value of the last key that contains "year",
and the total field the value of the last key that contains "count" or
"total" (case ignored); the matching keys before it do not change the
field. -/
theorem last_matching_key_wins (pre post : List (String × JsVal)) (k : String) (v : JsVal) :
    (isYearKey k = true → (∀ kv ∈ post, isYearKey kv.1 = false) →
      (mapRow (JsVal.obj (pre ++ (k, v) :: post))).year = v) ∧
    (isTotalKey k = true → (∀ kv ∈ post, isTotalKey kv.1 = false) →
      (mapRow (JsVal.obj (pre ++ (k, v) :: post))).total = v) :=
  ⟨fun hk h => foldl_scanStep_year_last pre post k v _ hk h,
    fun hk h => foldl_scanStep_total_last pre post k v _ hk h⟩

/-- C2, amended, at `{"Year": 1, "n": 2, "academicYear": 3, "id": 4}` (year)
and `{"count": 1, "n": 2, "Total": 3, "id": 4}` (total). -/
theorem last_matching_key_wins_witness :
    (mapRow (JsVal.obj ([("Year", JsVal.bool true), ("n", JsVal.null)] ++
      ("academicYear", JsVal.str "x") :: [("id", JsVal.null)]))).year = JsVal.str "x" ∧
    (mapRow (JsVal.obj ([("count", JsVal.bool true), ("n", JsVal.null)] ++
      ("Total", JsVal.str "y") :: [("id", JsVal.null)]))).total = JsVal.str "y" :=
  ⟨(last_matching_key_wins [("Year", JsVal.bool true), ("n", JsVal.null)] [("id", JsVal.null)]
      "academicYear" (JsVal.str "x")).1 (by decide) (by decide),
    ((last_matching_key_wins [("count", JsVal.bool true), ("n", JsVal.null)]
      [("id", JsVal.null)] "Total" (JsVal.str "y")).2 (by decide) (by decide))⟩

/-- C3, as the claim states it, fails: the one-element array `[2020]` maps to
`{year: 2020, total: undefined}` and the three-element array `[2020, 5, 7]` to
`{year: 2020, total: 5}`, and both appear in the normalised result. -/
theorem short_and_long_arrays_kept :
    mapRow (JsVal.arr [JsVal.num (JsNum.fin 2020)]) =
      ⟨JsVal.num (JsNum.fin 2020), JsVal.undefined⟩ ∧
    normalizeByYear (JsVal.arr [JsVal.arr [JsVal.num (JsNum.fin 2020)]]) =
      [⟨JsVal.num (JsNum.fin 2020), JsVal.undefined⟩] ∧
    mapRow (JsVal.arr [JsVal.num (JsNum.fin 2020), JsVal.num (JsNum.fin 5),
        JsVal.num (JsNum.fin 7)]) =
      ⟨JsVal.num (JsNum.fin 2020), JsVal.num (JsNum.fin 5)⟩ ∧
    normalizeByYear (JsVal.arr [JsVal.arr [JsVal.num (JsNum.fin 2020),
        JsVal.num (JsNum.fin 5), JsVal.num (JsNum.fin 7)]]) =
      [⟨JsVal.num (JsNum.fin 2020), JsVal.num (JsNum.fin 5)⟩] :=
  ⟨rfl, rfl, rfl, rfl⟩

/-- C3, amended: an element that is neither an array nor a keyed object maps
to `{year: null, total: null}` and does not appear in the normalised result;
an array of any length maps to `{year: row[0], total: row[1]}`, `undefined`
standing for a missing position, so it is left out when `row[0]` is missing,
`null` or `undefined` and kept as that row otherwise. -/
theorem element_shapes (row : JsVal) (items pre post : List JsVal) :
    (row.isArray = false → row.isKeyed = false →
      mapRow row = ⟨JsVal.null, JsVal.null⟩ ∧
      normalizeByYear (JsVal.arr (pre ++ row :: post)) =
        normalizeByYear (JsVal.arr (pre ++ post))) ∧
    mapRow (JsVal.arr items) = ⟨index items 0, index items 1⟩ ∧
    ((index items 0).isNullish = true →
      normalizeByYear (JsVal.arr (pre ++ JsVal.arr items :: post)) =
        normalizeByYear (JsVal.arr (pre ++ post))) ∧
    ((index items 0).isNullish = false →
      normalizeByYear (JsVal.arr (pre ++ JsVal.arr items :: post)) =
        normalizeByYear (JsVal.arr pre) ++
          ⟨index items 0, index items 1⟩ :: normalizeByYear (JsVal.arr post)) := by
  refine ⟨fun ha hk => ⟨mapRow_of_other row ha hk, ?_⟩, rfl, fun h => ?_, fun h => ?_⟩
  · rw [normalizeByYear_append, normalizeByYear_append, normalizeByYear_cons_drop]
    rw [mapRow_of_other row ha hk]
    rfl
  · rw [normalizeByYear_append, normalizeByYear_append, normalizeByYear_cons_drop]
    exact h
  · rw [normalizeByYear_append, normalizeByYear_cons_keep]
    · rfl
    · exact h

/-- C3, amended, at the element `"garbage"` and the arrays `[]` and `[2020]`
between `[2019, 1]` and `[2021, 2]`. -/
theorem element_shapes_witness :
    (mapRow (JsVal.str "garbage") = ⟨JsVal.null, JsVal.null⟩ ∧
      normalizeByYear (JsVal.arr
          ([JsVal.arr [JsVal.num (JsNum.fin 2019), JsVal.num (JsNum.fin 1)]] ++
            JsVal.str "garbage" ::
              [JsVal.arr [JsVal.num (JsNum.fin 2021), JsVal.num (JsNum.fin 2)]])) =
        normalizeByYear (JsVal.arr
          ([JsVal.arr [JsVal.num (JsNum.fin 2019), JsVal.num (JsNum.fin 1)]] ++
            [JsVal.arr [JsVal.num (JsNum.fin 2021), JsVal.num (JsNum.fin 2)]]))) ∧
    normalizeByYear (JsVal.arr
        ([JsVal.arr [JsVal.num (JsNum.fin 2019), JsVal.num (JsNum.fin 1)]] ++
          JsVal.arr [] ::
            [JsVal.arr [JsVal.num (JsNum.fin 2021), JsVal.num (JsNum.fin 2)]])) =
      normalizeByYear (JsVal.arr
        ([JsVal.arr [JsVal.num (JsNum.fin 2019), JsVal.num (JsNum.fin 1)]] ++
          [JsVal.arr [JsVal.num (JsNum.fin 2021), JsVal.num (JsNum.fin 2)]])) ∧
    normalizeByYear (JsVal.arr
        ([JsVal.arr [JsVal.num (JsNum.fin 2019), JsVal.num (JsNum.fin 1)]] ++
          JsVal.arr [JsVal.num (JsNum.fin 2020)] ::
            [JsVal.arr [JsVal.num (JsNum.fin 2021), JsVal.num (JsNum.fin 2)]])) =
      normalizeByYear (JsVal.arr
          [JsVal.arr [JsVal.num (JsNum.fin 2019), JsVal.num (JsNum.fin 1)]]) ++
        ⟨index [JsVal.num (JsNum.fin 2020)] 0, index [JsVal.num (JsNum.fin 2020)] 1⟩ ::
          normalizeByYear (JsVal.arr
            [JsVal.arr [JsVal.num (JsNum.fin 2021), JsVal.num (JsNum.fin 2)]]) :=
  ⟨(element_shapes (JsVal.str "garbage") []
      [JsVal.arr [JsVal.num (JsNum.fin 2019), JsVal.num (JsNum.fin 1)]]
      [JsVal.arr [JsVal.num (JsNum.fin 2021), JsVal.num (JsNum.fin 2)]]).1 rfl rfl,
    (element_shapes JsVal.null []
      [JsVal.arr [JsVal.num (JsNum.fin 2019), JsVal.num (JsNum.fin 1)]]
      [JsVal.arr [JsVal.num (JsNum.fin 2021), JsVal.num (JsNum.fin 2)]]).2.2.1 rfl,
    (element_shapes JsVal.null [JsVal.num (JsNum.fin 2020)]
      [JsVal.arr [JsVal.num (JsNum.fin 2019), JsVal.num (JsNum.fin 1)]]
      [JsVal.arr [JsVal.num (JsNum.fin 2021), JsVal.num (JsNum.fin 2)]]).2.2.2 rfl⟩

/-- C4: the response normaliser is total and idempotent.  Both normalisations
are functions defined on every value, and on `null`, a string, the empty
sequence and a sequence of `null`, a scalar, `[]` and `{}` they return the
empty sequence; the by-year normalisation applied to its own result returns
that result; the list normalisation passes an array through unchanged, yields
the empty sequence for anything else, and applied to its own result returns
that result. -/
theorem normalizer_total_idempotent (p : JsVal) :
    normalizeByYear (JsVal.arr ((normalizeByYear p).map YearRow.toJs)) = normalizeByYear p ∧
    normalizeList (JsVal.arr (normalizeList p)) = normalizeList p ∧
    (∀ items : List JsVal, normalizeList (JsVal.arr items) = items) ∧
    (p.isArray = false → normalizeList p = [] ∧ normalizeByYear p = []) ∧
    normalizeByYear JsVal.null = [] ∧ normalizeList JsVal.null = [] ∧
    normalizeByYear (JsVal.str "oops") = [] ∧ normalizeList (JsVal.str "oops") = [] ∧
    normalizeByYear (JsVal.arr []) = [] ∧ normalizeList (JsVal.arr []) = [] ∧
    normalizeByYear (JsVal.arr [JsVal.null, JsVal.num (JsNum.fin 7), JsVal.arr [],
      JsVal.obj []]) = [] :=
  ⟨normalizeByYear_map_toJs _ (normalizeByYear_year p), rfl, fun _ => rfl,
    fun h => ⟨normalizeList_of_not_array p h, normalizeByYear_of_not_array p h⟩,
    rfl, rfl, rfl, rfl, rfl, rfl, rfl⟩

/-- C4 at the payload `{"year": 2020}`, which is no array, and at the payload
`[[2020, 5], [null, 1]]`. -/
theorem normalizer_total_idempotent_witness :
    (normalizeList (JsVal.obj [("year", JsVal.num (JsNum.fin 2020))]) = [] ∧
      normalizeByYear (JsVal.obj [("year", JsVal.num (JsNum.fin 2020))]) = []) ∧
    normalizeByYear (JsVal.arr ((normalizeByYear (JsVal.arr
        [JsVal.arr [JsVal.num (JsNum.fin 2020), JsVal.num (JsNum.fin 5)],
          JsVal.arr [JsVal.null, JsVal.num (JsNum.fin 1)]])).map YearRow.toJs)) =
      normalizeByYear (JsVal.arr
        [JsVal.arr [JsVal.num (JsNum.fin 2020), JsVal.num (JsNum.fin 5)],
          JsVal.arr [JsVal.null, JsVal.num (JsNum.fin 1)]]) :=
  ⟨(normalizer_total_idempotent (JsVal.obj [("year", JsVal.num (JsNum.fin 2020))])).2.2.2.1 rfl,
    (normalizer_total_idempotent (JsVal.arr
      [JsVal.arr [JsVal.num (JsNum.fin 2020), JsVal.num (JsNum.fin 5)],
        JsVal.arr [JsVal.null, JsVal.num (JsNum.fin 1)]])).1⟩

/-! ## Lemmas on `refresh` -/

theorem run_append (s : View) (a b : List Event) : s.run (a ++ b) = (s.run a).run b := by
  simp [View.run, List.foldl_append]

theorem run_cons (s : View) (e : Event) (b : List Event) : s.run (e :: b) = (s.apply e).run b :=
  rfl

theorem getJSONResult_fails (path : String) (out : FetchResult) :
    getJSONFails out = true ↔ ∃ msg, getJSONResult path out = Except.error msg := by
  cases out with
  | rejected m => simp [getJSONFails, getJSONResult]
  | resolved r =>
    unfold getJSONFails getJSONResult
    by_cases hok : r.ok = true
    · by_cases hct : includes (r.contentType.getD "") "application/json" = true
      · cases hj : r.json <;> simp [hok, hct, hj]
      · cases ht : r.text <;> simp [hok, hct, ht, Except.map]
    · simp [hok]

theorem refreshList_cases (env : Env) :
    (getJSONFails (env.fetch (Request.get "/api/students/all")) = true ∧
      refreshList env = [Event.fetch (Request.get "/api/students/all"), Event.setStudents [],
        Event.setError listFailure]) ∨
    (getJSONFails (env.fetch (Request.get "/api/students/all")) = false ∧
      ∃ list, refreshList env =
        [Event.fetch (Request.get "/api/students/all"), Event.setStudents list]) := by
  unfold refreshList getJSON
  cases h : getJSONResult "/api/students/all" (env.fetch (Request.get "/api/students/all")) with
  | error msg =>
    left
    exact ⟨(getJSONResult_fails _ _).mpr ⟨msg, h⟩, rfl⟩
  | ok v =>
    right
    refine ⟨?_, normalizeList v, rfl⟩
    cases hf : getJSONFails (env.fetch (Request.get "/api/students/all")) with
    | false => rfl
    | true =>
      obtain ⟨msg, hm⟩ := (getJSONResult_fails "/api/students/all" _).mp hf
      rw [h] at hm
      cases hm

theorem refreshCount_cases (env : Env) :
    (countReadFails (env.fetch (Request.get "/api/students/count")) = true ∧
      refreshCount env = [Event.fetch (Request.get "/api/students/count"),
        Event.setCount (JsNum.fin 0), Event.setErrorIfEmpty countFailure]) ∨
    (countReadFails (env.fetch (Request.get "/api/students/count")) = false ∧
      ∃ n, refreshCount env =
        [Event.fetch (Request.get "/api/students/count"), Event.setCount n]) := by
  unfold refreshCount countReadFails
  cases h : env.fetch (Request.get "/api/students/count") with
  | rejected m => left; exact ⟨rfl, rfl⟩
  | resolved raw =>
    cases ht : raw.text with
    | error m => left; simp [ht]
    | ok txt => right; simp [ht]

theorem refreshByYear_cases (env : Env) :
    (getJSONFails (env.fetch (Request.get "/api/students/byYear")) = true ∧
      refreshByYear env = [Event.fetch (Request.get "/api/students/byYear"),
        Event.setByYear []]) ∨
    (getJSONFails (env.fetch (Request.get "/api/students/byYear")) = false ∧
      ∃ rows, refreshByYear env =
        [Event.fetch (Request.get "/api/students/byYear"), Event.setByYear rows]) := by
  unfold refreshByYear getJSON
  cases h : getJSONResult "/api/students/byYear"
      (env.fetch (Request.get "/api/students/byYear")) with
  | error msg =>
    left
    exact ⟨(getJSONResult_fails _ _).mpr ⟨msg, h⟩, rfl⟩
  | ok v =>
    right
    refine ⟨?_, normalizeByYear v, rfl⟩
    cases hf : getJSONFails (env.fetch (Request.get "/api/students/byYear")) with
    | false => rfl
    | true =>
      obtain ⟨msg, hm⟩ := (getJSONResult_fails "/api/students/byYear" _).mp hf
      rw [h] at hm
      cases hm

theorem listFailure_ne_empty : listFailure ≠ "" := by decide

theorem refresh_error (env : Env) (s : View) :
    (s.run (refresh env)).error =
      if getJSONFails (env.fetch (Request.get "/api/students/all")) = true then listFailure
      else if countReadFails (env.fetch (Request.get "/api/students/count")) = true then
        countFailure
      else "" := by
  unfold refresh
  rcases refreshList_cases env with ⟨hl, el⟩ | ⟨hl, list, el⟩ <;>
    rcases refreshCount_cases env with ⟨hc, ec⟩ | ⟨hc, n, ec⟩ <;>
    rcases refreshByYear_cases env with ⟨hy, ey⟩ | ⟨hy, rows, ey⟩ <;>
    simp [el, ec, ey, hl, hc, View.run, View.apply, listFailure_ne_empty]

theorem refresh_count (env : Env) (s : View) :
    (s.run (refresh env)).count = (View.init.run (refreshCount env)).count := by
  unfold refresh
  rcases refreshList_cases env with ⟨_, el⟩ | ⟨_, list, el⟩ <;>
    rcases refreshCount_cases env with ⟨_, ec⟩ | ⟨_, n, ec⟩ <;>
    rcases refreshByYear_cases env with ⟨_, ey⟩ | ⟨_, rows, ey⟩ <;>
    simp [el, ec, ey, View.run, View.apply]

theorem refresh_byYear (env : Env) (s : View) :
    (s.run (refresh env)).byYear = (View.init.run (refreshByYear env)).byYear := by
  unfold refresh
  rcases refreshList_cases env with ⟨_, el⟩ | ⟨_, list, el⟩ <;>
    rcases refreshCount_cases env with ⟨_, ec⟩ | ⟨_, n, ec⟩ <;>
    rcases refreshByYear_cases env with ⟨_, ey⟩ | ⟨_, rows, ey⟩ <;>
    simp [el, ec, ey, View.run, View.apply]

theorem refresh_students (env : Env) (s : View) :
    (s.run (refresh env)).students = (View.init.run (refreshList env)).students := by
  unfold refresh
  rcases refreshList_cases env with ⟨_, el⟩ | ⟨_, list, el⟩ <;>
    rcases refreshCount_cases env with ⟨_, ec⟩ | ⟨_, n, ec⟩ <;>
    rcases refreshByYear_cases env with ⟨_, ey⟩ | ⟨_, rows, ey⟩ <;>
    simp [el, ec, ey, View.run, View.apply]

theorem refresh_frame (env : Env) (s : View) :
    (s.run (refresh env)).form = s.form ∧ (s.run (refresh env)).saving = s.saving ∧
      (s.run (refresh env)).loading = false := by
  unfold refresh
  rcases refreshList_cases env with ⟨_, el⟩ | ⟨_, list, el⟩ <;>
    rcases refreshCount_cases env with ⟨_, ec⟩ | ⟨_, n, ec⟩ <;>
    rcases refreshByYear_cases env with ⟨_, ey⟩ | ⟨_, rows, ey⟩ <;>
    simp [el, ec, ey, View.run, View.apply]

theorem refreshCount_congr (env env' : Env)
    (h : env.fetch (Request.get "/api/students/count") =
      env'.fetch (Request.get "/api/students/count")) :
    refreshCount env = refreshCount env' := by
  unfold refreshCount
  rw [h]

theorem refreshByYear_congr (env env' : Env)
    (h : env.fetch (Request.get "/api/students/byYear") =
      env'.fetch (Request.get "/api/students/byYear")) :
    refreshByYear env = refreshByYear env' := by
  unfold refreshByYear getJSON
  rw [h]

theorem refresh_requests (env : Env) :
    requests (refresh env) = [Request.get "/api/students/all", Request.get "/api/students/count",
      Request.get "/api/students/byYear"] := by
  rcases refreshList_cases env with ⟨_, el⟩ | ⟨_, list, el⟩ <;>
    rcases refreshCount_cases env with ⟨_, ec⟩ | ⟨_, n, ec⟩ <;>
    rcases refreshByYear_cases env with ⟨_, ey⟩ | ⟨_, rows, ey⟩ <;>
    · rw [refresh, el, ec, ey]
      rfl

theorem run_loading (evs : List Event) (s : View)
    (h : ∀ e ∈ evs, ∀ b, e ≠ Event.setLoading b) : (s.run evs).loading = s.loading := by
  induction evs generalizing s with
  | nil => rfl
  | cons e rest ih =>
    rw [run_cons, ih _ (fun x hx => h x (List.mem_cons_of_mem _ hx))]
    have he := h e (List.mem_cons_self _ _)
    cases e <;> simp_all [View.apply]

theorem refresh_shape (env : Env) :
    ∃ mid, refresh env = Event.setLoading true :: mid ++ [Event.setLoading false] ∧
      ∀ e ∈ mid, ∀ b, e ≠ Event.setLoading b := by
  refine ⟨Event.setError "" :: (refreshList env ++ refreshCount env ++ refreshByYear env), ?_, ?_⟩
  · simp [refresh]
  · rcases refreshList_cases env with ⟨_, el⟩ | ⟨_, list, el⟩ <;>
      rcases refreshCount_cases env with ⟨_, ec⟩ | ⟨_, n, ec⟩ <;>
      rcases refreshByYear_cases env with ⟨_, ey⟩ | ⟨_, rows, ey⟩ <;>
      · intro e he b hb
        subst hb
        rw [el, ec, ey] at he
        simp at he

theorem refresh_loading_between (env : Env) (s : View) (pre : List Event)
    (hp : pre <+: refresh env) (hne : pre ≠ []) (hnot : pre ≠ refresh env) :
    (s.run pre).loading = true := by
  obtain ⟨mid, hr, hmid⟩ := refresh_shape env
  rw [hr] at hp hnot
  have hp2 : pre <+: Event.setLoading true :: mid := by
    have := List.prefix_concat_iff.mp (by simpa using hp : pre <+: (Event.setLoading true :: mid) ++ [Event.setLoading false])
    rcases this with h | h
    · exact absurd (by simpa using h) hnot
    · exact h
  match pre, hne, hp2 with
  | e :: pre', _, hp2 =>
    obtain ⟨he, hpre⟩ := List.cons_prefix_cons.mp hp2
    subst he
    rw [run_cons, run_loading pre' _ (fun x hx => hmid x (hpre.subset hx))]
    rfl

theorem refresh_byYear_of_fail (env : Env) (s : View)
    (h : getJSONFails (env.fetch (Request.get "/api/students/byYear")) = true) :
    (s.run (refresh env)).byYear = [] := by
  rw [refresh_byYear]
  rcases refreshByYear_cases env with ⟨_, ey⟩ | ⟨hy, _, _⟩
  · rw [ey]
    rfl
  · rw [h] at hy
    cases hy

theorem refresh_students_of_fail (env : Env) (s : View)
    (h : getJSONFails (env.fetch (Request.get "/api/students/all")) = true) :
    (s.run (refresh env)).students = [] := by
  rw [refresh_students]
  rcases refreshList_cases env with ⟨_, el⟩ | ⟨hl, _, _⟩
  · rw [el]
    rfl
  · rw [h] at hl
    cases hl

/-! ## The scalar count -/

theorem refresh_count_of_text (env : Env) (s : View) (raw : Response) (txt : String)
    (hf : env.fetch (Request.get "/api/students/count") = FetchResult.resolved raw)
    (ht : raw.text = Except.ok txt) : (s.run (refresh env)).count = parseCount txt := by
  rw [refresh_count]
  unfold refreshCount
  rw [hf]
  simp only [ht]
  rfl

theorem parseCount_of_numeric (txt : String) (w : JsNum)
    (h : NumericText (trimChars txt.data) w) : parseCount txt = numberValue w := by
  rw [parseCount_eq, stringToNumber_of_numeric txt w h, if_neg (numberValue_ne_nan _ w h)]

theorem parseCount_of_not_numeric (txt : String)
    (h : ¬ ∃ w, NumericText (trimChars txt.data) w) : parseCount txt = JsNum.fin 0 := by
  by_cases hne : trimChars txt.data = []
  · have hs : stringToNumber txt = JsNum.fin 0 := by
      unfold stringToNumber
      simp [hne]
    rw [parseCount_eq, hs]
    simp
  · rw [parseCount_eq]
    by_cases hn : stringToNumber txt = JsNum.nan
    · rw [if_pos hn]
    · exact absurd (numeric_of_stringToNumber txt hne hn) h

/-- C5, as the claim states it, fails: the text `9007199254740993` is numeric
and denotes the number 9007199254740993, yet the count stored for it, here by
a refresh whose count endpoint answers with that text, is
9007199254740992. -/
theorem count_rounded_above_2_pow_53 :
    NumericText "9007199254740993".data (JsNum.fin 9007199254740993) ∧
    parseCount "9007199254740993" = JsNum.fin 9007199254740992 ∧
    parseCount "9007199254740993" ≠ JsNum.fin 9007199254740993 ∧
    (View.init.run (refresh (backend sampleList
      (FetchResult.resolved (textResponse 200 "OK" "9007199254740993")) sampleByYear
      (FetchResult.rejected "unused") true))).count = JsNum.fin 9007199254740992 :=
  ⟨NumericText.decimal _ _ (unsignedDecimalValue_sound _ _ (by decide!)),
    by decide!, by decide!, by decide!⟩

/-- C5, amended: the count stored by `refresh` for a response text is
`Number(text) || 0`.  It is `0` when the text is empty, blank or no numeric
literal; when the text, white space at both ends apart, is a numeric literal,
it is the Number value of the number the literal denotes: the binary64 value
nearest to that number, an infinity when the number is at least
`2 ^ 1024 - 2 ^ 970` in magnitude, and the number itself when it is an
integer of magnitude below `2 ^ 53`.  The numeral of every natural number
below `2 ^ 53` yields that number; `"42"` yields `42`, `""` yields `0`,
`"abc"` yields `0`, `"-5"` yields `-5` and `"12px"` yields `0`. -/
theorem parseCount_spec :
    (∀ (env : Env) (s : View) (raw : Response) (txt : String),
      env.fetch (Request.get "/api/students/count") = FetchResult.resolved raw →
      raw.text = Except.ok txt → (s.run (refresh env)).count = parseCount txt) ∧
    (∀ txt : String, (∀ c ∈ txt.data, isStrWhiteSpaceChar c = true) →
      parseCount txt = JsNum.fin 0) ∧
    (∀ (txt : String) (w : JsNum), NumericText (trimChars txt.data) w →
      parseCount txt = numberValue w) ∧
    (∀ txt : String, (¬ ∃ w, NumericText (trimChars txt.data) w) →
      parseCount txt = JsNum.fin 0) ∧
    (∀ z : ℤ, |z| < 2 ^ 53 → numberValue (JsNum.fin z) = JsNum.fin z) ∧
    (∀ q r : ℚ, numberValue (JsNum.fin q) = JsNum.fin r →
      IsBinary64 r ∧ ∀ d, IsBinary64 d → |q - r| ≤ |q - d|) ∧
    (∀ q : ℚ, numberValue (JsNum.fin q) = JsNum.posInf ↔
      (2 : ℚ) ^ (1024 : ℤ) - (2 : ℚ) ^ (970 : ℤ) ≤ q) ∧
    (∀ q : ℚ, numberValue (JsNum.fin q) = JsNum.negInf ↔
      q ≤ -((2 : ℚ) ^ (1024 : ℤ) - (2 : ℚ) ^ (970 : ℤ))) ∧
    (∀ q : ℚ, numberValue (JsNum.fin q) ≠ JsNum.nan) ∧
    (∀ n : Nat, n < 2 ^ 53 → parseCount (toString n) = JsNum.fin n) ∧
    parseCount "42" = JsNum.fin 42 ∧ parseCount "" = JsNum.fin 0 ∧
    parseCount "abc" = JsNum.fin 0 ∧ parseCount "-5" = JsNum.fin (-5) ∧
    parseCount "12px" = JsNum.fin 0 :=
  ⟨refresh_count_of_text, parseCount_of_white_space, parseCount_of_numeric,
    parseCount_of_not_numeric, roundBinary64_intCast, roundBinary64_fin,
    roundBinary64_posInf_iff, roundBinary64_negInf_iff, roundBinary64_ne_nan,
    parseCount_toString, by decide!, by decide!, by decide!, by decide!, by decide!⟩

/-- C5, amended, at a refresh whose count endpoint answers `200` with the
text `1`, at the blank text of a space and a line feed, at the text ` -15`
followed by a line feed, at the text `12px`, which is no numeric literal, at the
integer `-15`, at the number one tenth and at the numeral of `1234567890`. -/
theorem parseCount_spec_witness :
    (staleView.run (refresh (backend sampleList sampleCount sampleByYear
      (FetchResult.rejected "unused") true))).count = parseCount "1" ∧
    parseCount " \n" = JsNum.fin 0 ∧
    parseCount " -15\n" =
      numberValue (JsNum.fin (-((digitsNat 10 ['1', '5'] : ℚ) * (10 : ℚ) ^ (0 : ℤ)))) ∧
    parseCount "12px" = JsNum.fin 0 ∧
    numberValue (JsNum.fin ((-15 : ℤ) : ℚ)) = JsNum.fin ((-15 : ℤ) : ℚ) ∧
    (IsBinary64 (3602879701896397 / 36028797018963968) ∧
      ∀ d, IsBinary64 d →
        |(1 / 10 : ℚ) - 3602879701896397 / 36028797018963968| ≤ |(1 / 10 : ℚ) - d|) ∧
    parseCount (toString 1234567890) = JsNum.fin (1234567890 : ℕ) :=
  ⟨parseCount_spec.1 _ staleView (textResponse 200 "OK" "1") "1" rfl rfl,
    parseCount_spec.2.1 " \n" (by decide),
    parseCount_spec.2.2.1 " -15\n" _
      (NumericText.minus ['1', '5'] _
        (UnsignedDecimalText.whole ['1', '5'] [] 0 (by decide)
          ((allDigits_iff _).mpr (by decide)) ExponentText.absent)),
    parseCount_spec.2.2.2.1 "12px"
      (fun ⟨w, hw⟩ => numberValue_ne_nan _ w hw
        ((stringToNumber_of_numeric "12px" w hw).symm.trans (by decide!))),
    parseCount_spec.2.2.2.2.1 (-15) (by decide),
    parseCount_spec.2.2.2.2.2.1 (1 / 10) (3602879701896397 / 36028797018963968) (by decide!),
    parseCount_spec.2.2.2.2.2.2.2.2.2.1 1234567890 (by norm_num)⟩

/-! ## The fetch orchestrator -/

/-- C6, the code at a failing input: the list and by-year reads succeed and
the count endpoint answers `503 Service Unavailable`.  The count fetch has
failed, yet `refresh` ends with an empty error message, where the claim gives
the count-failure message; the same answer on the list endpoint does set the
list-failure message.  The count block never tests the status of its
response, the defect shown for C8. -/
theorem count_failure_not_reported :
    (textResponse 503 "Service Unavailable" "").ok = false ∧
    getJSONFails (FetchResult.resolved (textResponse 503 "Service Unavailable" "")) = true ∧
    (staleView.run (refresh (backend sampleList
      (FetchResult.resolved (textResponse 503 "Service Unavailable" "")) sampleByYear
      (FetchResult.rejected "unused") true))).error = "" ∧
    (staleView.run (refresh (backend
      (FetchResult.resolved (textResponse 503 "Service Unavailable" "")) sampleCount
      sampleByYear (FetchResult.rejected "unused") true))).error =
      "Some data failed to load (list)." :=
  ⟨by decide, by decide, by decide, by decide⟩

/-- C7: the three fetches of `refresh` do not short-circuit each other.  When
the list fetch fails, `students` is empty while `count` and `yearAggregates`
are what they are in any refresh that gets the same count and by-year
answers; every refresh issues the three requests, in the order list, count,
by-year; and the loading flag is true at every point between the first and
the last effect and false at the end. -/
theorem refresh_isolation (env env' : Env) (s s' : View) :
    (getJSONFails (env.fetch (Request.get "/api/students/all")) = true →
      env.fetch (Request.get "/api/students/count") =
        env'.fetch (Request.get "/api/students/count") →
      env.fetch (Request.get "/api/students/byYear") =
        env'.fetch (Request.get "/api/students/byYear") →
      (s.run (refresh env)).students = [] ∧
      (s.run (refresh env)).count = (s'.run (refresh env')).count ∧
      (s.run (refresh env)).byYear = (s'.run (refresh env')).byYear) ∧
    requests (refresh env) = [Request.get "/api/students/all",
      Request.get "/api/students/count", Request.get "/api/students/byYear"] ∧
    (∀ pre, pre <+: refresh env → pre ≠ [] → pre ≠ refresh env →
      (s.run pre).loading = true) ∧
    (s.run (refresh env)).loading = false := by
  refine ⟨fun hl hc hy => ⟨refresh_students_of_fail env s hl, ?_, ?_⟩, refresh_requests env,
    fun pre => refresh_loading_between env s pre, (refresh_frame env s).2.2⟩
  · rw [refresh_count env s, refresh_count env' s', refreshCount_congr env env' hc]
  · rw [refresh_byYear env s, refresh_byYear env' s', refreshByYear_congr env env' hy]

/-- C7 at a refresh whose list fetch is rejected, against the refresh in
which it succeeds, with the same count and by-year answers; and at the point
of the first refresh right after the list block. -/
theorem refresh_isolation_witness :
    ((staleView.run (refresh (backend (FetchResult.rejected "Failed to fetch") sampleCount
        sampleByYear (FetchResult.rejected "unused") true))).students = [] ∧
      (staleView.run (refresh (backend (FetchResult.rejected "Failed to fetch") sampleCount
        sampleByYear (FetchResult.rejected "unused") true))).count =
        (View.init.run (refresh (backend sampleList sampleCount sampleByYear
          (FetchResult.rejected "unused") true))).count ∧
      (staleView.run (refresh (backend (FetchResult.rejected "Failed to fetch") sampleCount
        sampleByYear (FetchResult.rejected "unused") true))).byYear =
        (View.init.run (refresh (backend sampleList sampleCount sampleByYear
          (FetchResult.rejected "unused") true))).byYear) ∧
    (staleView.run [Event.setLoading true, Event.setError "",
      Event.fetch (Request.get "/api/students/all"), Event.setStudents [],
      Event.setError listFailure]).loading = true :=
  ⟨(refresh_isolation (backend (FetchResult.rejected "Failed to fetch") sampleCount
      sampleByYear (FetchResult.rejected "unused") true)
      (backend sampleList sampleCount sampleByYear (FetchResult.rejected "unused") true)
      staleView View.init).1 (by decide) rfl rfl,
    (refresh_isolation (backend (FetchResult.rejected "Failed to fetch") sampleCount
      sampleByYear (FetchResult.rejected "unused") true)
      (backend sampleList sampleCount sampleByYear (FetchResult.rejected "unused") true)
      staleView View.init).2.2.1 _ ⟨_, rfl⟩ (by simp)
      (fun h => absurd (congrArg List.length h) (by decide))⟩

/-- C8, the code at a failing input: the count endpoint answers `500` with
the body `42` while the two other reads succeed; the response is not `ok`,
yet the count block does not land in its `catch`: `count` is `42`, not `0`,
and the error message is empty. -/
theorem count_status_not_checked :
    (textResponse 500 "Internal Server Error" "42").ok = false ∧
    countReadFails (serverError "42") = false ∧
    (View.init.run (refresh (backend sampleList (serverError "42") sampleByYear
      (FetchResult.rejected "unused") true))).count = JsNum.fin 42 ∧
    (View.init.run (refresh (backend sampleList (serverError "42") sampleByYear
      (FetchResult.rejected "unused") true))).error = "" :=
  ⟨by decide, by decide, by decide!, by decide⟩

/-! ## The mutation handlers -/

theorem requests_append (a b : List Event) : requests (a ++ b) = requests a ++ requests b := by
  induction a with
  | nil => rfl
  | cons e rest ih => cases e <;> simp [requests, ih]

theorem canSave_eq_false_iff (form : Form) :
    canSave form = false ↔
      trim form.nom = "" ∨ trim form.prenom = "" ∨ form.dateNaissance = "" := by
  unfold canSave
  by_cases h1 : trim form.nom = "" <;> by_cases h2 : trim form.prenom = "" <;>
    by_cases h3 : form.dateNaissance = "" <;> simp [h1, h2, h3]

theorem run_saving (evs : List Event) (s : View)
    (h : ∀ e ∈ evs, ∀ b, e ≠ Event.setSaving b) : (s.run evs).saving = s.saving := by
  induction evs generalizing s with
  | nil => rfl
  | cons e rest ih =>
    rw [run_cons, ih _ (fun x hx => h x (List.mem_cons_of_mem _ hx))]
    have he := h e (List.mem_cons_self _ _)
    cases e <;> simp_all [View.apply]

theorem refresh_no_setSaving (env : Env) : ∀ e ∈ refresh env, ∀ b, e ≠ Event.setSaving b := by
  rcases refreshList_cases env with ⟨_, el⟩ | ⟨_, list, el⟩ <;>
    rcases refreshCount_cases env with ⟨_, ec⟩ | ⟨_, n, ec⟩ <;>
    rcases refreshByYear_cases env with ⟨_, ey⟩ | ⟨_, rows, ey⟩ <;>
    · intro e he b hb
      subst hb
      rw [refresh, el, ec, ey] at he
      simp at he

theorem onCreate_rejected (env : Env) (form : Form) (h : canSave form = true) (m : String)
    (hf : env.fetch (saveRequest form) = FetchResult.rejected m) :
    onCreate env form = [Event.setSaving true, Event.fetch (saveRequest form),
      Event.setError ("Create failed: " ++ m), Event.setSaving false] := by
  unfold onCreate
  simp [h, hf]

theorem onCreate_not_ok (env : Env) (form : Form) (h : canSave form = true) (r : Response)
    (hf : env.fetch (saveRequest form) = FetchResult.resolved r) (hok : r.ok = false) :
    onCreate env form = [Event.setSaving true, Event.fetch (saveRequest form),
      Event.setError ("Create failed: " ++
        ("save → " ++ toString r.status ++ " " ++ r.statusText)),
      Event.setSaving false] := by
  unfold onCreate
  simp [h, hf, hok]

theorem onCreate_ok (env : Env) (form : Form) (h : canSave form = true) (r : Response)
    (hf : env.fetch (saveRequest form) = FetchResult.resolved r) (hok : r.ok = true) :
    onCreate env form = Event.setSaving true :: Event.fetch (saveRequest form) ::
      Event.setForm Form.empty :: refresh env ++ [Event.setSaving false] := by
  unfold onCreate
  simp [h, hf, hok]

theorem onCreate_of_canSave (env : Env) (form : Form) (h : canSave form = true) :
    ∃ mid, onCreate env form =
      Event.setSaving true :: Event.fetch (saveRequest form) :: mid ++ [Event.setSaving false] ∧
      (requests mid).filter (fun req => decide (req.method ≠ "GET")) = [] ∧
      ∀ e ∈ mid, ∀ b, e ≠ Event.setSaving b := by
  cases hf : env.fetch (saveRequest form) with
  | rejected m =>
    refine ⟨[Event.setError ("Create failed: " ++ m)], ?_, rfl, ?_⟩
    · rw [onCreate_rejected env form h m hf]
      rfl
    · intro e he b hb
      subst hb
      simp at he
  | resolved r =>
    by_cases hok : r.ok = true
    · refine ⟨Event.setForm Form.empty :: refresh env, ?_, ?_, ?_⟩
      · exact onCreate_ok env form h r hf hok
      · have hr : requests (Event.setForm Form.empty :: refresh env) =
            requests (refresh env) := rfl
        rw [hr, refresh_requests]
        rfl
      · intro e he b hb
        rcases List.mem_cons.mp he with h1 | h1
        · subst hb
          cases h1
        · exact refresh_no_setSaving env e h1 b hb
    · have hok' : r.ok = false := by simpa using hok
      refine ⟨[Event.setError ("Create failed: " ++
        ("save → " ++ toString r.status ++ " " ++ r.statusText))], ?_, rfl, ?_⟩
      · rw [onCreate_not_ok env form h r hf hok']
        rfl
      · intro e he b hb
        subst hb
        simp at he

theorem run_concat_saving (s : View) (evs : List Event) :
    (s.run (evs ++ [Event.setSaving false])).saving = false := by
  rw [run_append]
  rfl

theorem saving_between (s : View) (req : Request) (mid pre : List Event)
    (hmid : ∀ e ∈ mid, ∀ b, e ≠ Event.setSaving b)
    (hp : pre <+: Event.setSaving true :: Event.fetch req :: mid ++ [Event.setSaving false])
    (hne : pre ≠ [])
    (hnot : pre ≠ Event.setSaving true :: Event.fetch req :: mid ++ [Event.setSaving false]) :
    (s.run pre).saving = true := by
  have hp2 : pre <+: Event.setSaving true :: Event.fetch req :: mid := by
    have hp' : pre <+: (Event.setSaving true :: Event.fetch req :: mid) ++
        [Event.setSaving false] := by simpa using hp
    rcases List.prefix_concat_iff.mp hp' with h | h
    · exact absurd (by simpa using h) hnot
    · exact h
  match pre, hne, hp2 with
  | e :: pre', _, hp2 =>
    obtain ⟨he, hpre⟩ := List.cons_prefix_cons.mp hp2
    subst he
    rw [run_cons, run_saving pre' _ ?_]
    · rfl
    · intro x hx b hb
      rcases List.mem_cons.mp (hpre.subset hx) with h1 | h1
      · subst hb
        cases h1
      · exact hmid x h1 b hb

/-- C9: `onCreate` with a draft whose last name or first name is empty after
trimming, or whose birth date is empty, performs no effect: no request, no
change of state at any point of the call, so the saving flag, false before
the call, is false throughout.  With a draft that passes the guard the call
sets the saving flag, issues the write as its first request, with a body that
holds the trimmed names and the birth date as entered, and issues no other
request that is no read; the saving flag is true at every point between the
first and the last effect and false when the call completes, whatever the
outcome of the write: a rejected write or an answer that is no success sets
the `Create failed` message and runs no refresh, a success clears the form
and runs `refresh`. -/
theorem onCreate_guard (env : Env) (form : Form) (s : View) :
    (trim form.nom = "" ∨ trim form.prenom = "" ∨ form.dateNaissance = "" →
      onCreate env form = [] ∧ requests (onCreate env form) = [] ∧
      (∀ pre, pre <+: onCreate env form → s.run pre = s) ∧
      (s.saving = false → ∀ pre, pre <+: onCreate env form → (s.run pre).saving = false)) ∧
    (trim form.nom ≠ "" → trim form.prenom ≠ "" → form.dateNaissance ≠ "" →
      (requests (onCreate env form)).head? = some (saveRequest form) ∧
      (saveRequest form).method = "POST" ∧
      (saveRequest form).body = some (JsVal.obj [("nom", JsVal.str (trim form.nom)),
        ("prenom", JsVal.str (trim form.prenom)),
        ("dateNaissance", JsVal.str form.dateNaissance)]) ∧
      (requests (onCreate env form)).filter (fun req => decide (req.method ≠ "GET")) =
        [saveRequest form] ∧
      (∃ rest, onCreate env form =
        Event.setSaving true :: Event.fetch (saveRequest form) :: rest) ∧
      (∀ pre, pre <+: onCreate env form → pre ≠ [] → pre ≠ onCreate env form →
        (s.run pre).saving = true) ∧
      (s.run (onCreate env form)).saving = false ∧
      (∀ m, env.fetch (saveRequest form) = FetchResult.rejected m →
        onCreate env form = [Event.setSaving true, Event.fetch (saveRequest form),
          Event.setError ("Create failed: " ++ m), Event.setSaving false]) ∧
      (∀ r, env.fetch (saveRequest form) = FetchResult.resolved r → r.ok = false →
        onCreate env form = [Event.setSaving true, Event.fetch (saveRequest form),
          Event.setError ("Create failed: " ++
            ("save → " ++ toString r.status ++ " " ++ r.statusText)),
          Event.setSaving false]) ∧
      (∀ r, env.fetch (saveRequest form) = FetchResult.resolved r → r.ok = true →
        onCreate env form = Event.setSaving true :: Event.fetch (saveRequest form) ::
          Event.setForm Form.empty :: refresh env ++ [Event.setSaving false])) := by
  constructor
  · intro h
    have hc : onCreate env form = [] := by
      unfold onCreate
      rw [(canSave_eq_false_iff form).mpr h]
      rfl
    rw [hc]
    refine ⟨rfl, rfl, ?_, ?_⟩
    · intro pre hp
      rw [List.prefix_nil.mp hp]
      rfl
    · intro hs pre hp
      rw [List.prefix_nil.mp hp]
      exact hs
  · intro h1 h2 h3
    have hc : canSave form = true := by
      cases hcs : canSave form with
      | true => rfl
      | false =>
        rcases (canSave_eq_false_iff form).mp hcs with h | h | h
        · exact absurd h h1
        · exact absurd h h2
        · exact absurd h h3
    obtain ⟨mid, hm, hreq, hmid⟩ := onCreate_of_canSave env form hc
    refine ⟨?_, rfl, rfl, ?_, ⟨mid ++ [Event.setSaving false], by rw [hm]; simp⟩, ?_, ?_,
      fun m hf => onCreate_rejected env form hc m hf,
      fun r hf hok => onCreate_not_ok env form hc r hf hok,
      fun r hf hok => onCreate_ok env form hc r hf hok⟩
    · rw [hm]
      rfl
    · rw [hm]
      have : Event.setSaving true :: Event.fetch (saveRequest form) ::
          mid ++ [Event.setSaving false] =
          [Event.setSaving true, Event.fetch (saveRequest form)] ++ mid ++
            [Event.setSaving false] := by simp
      rw [this, requests_append, requests_append, List.filter_append, List.filter_append, hreq]
      simp [requests, saveRequest]
    · intro pre hp hne hnot
      rw [hm] at hp hnot
      exact saving_between s (saveRequest form) mid pre hmid hp hne hnot
    · rw [hm]
      exact run_concat_saving s (Event.setSaving true :: Event.fetch (saveRequest form) :: mid)

/-- C9 at a draft whose first name is blank, and at the draft of `staleView`
against a backend that answers the write with a `500`: the flag is true once
the write is issued and after the message is set, and false at the end. -/
theorem onCreate_guard_witness :
    (onCreate (backend sampleList sampleCount sampleByYear sampleCount true)
        ⟨"Dupont", "  ", "2001-02-03"⟩ = [] ∧
      requests (onCreate (backend sampleList sampleCount sampleByYear sampleCount true)
        ⟨"Dupont", "  ", "2001-02-03"⟩) = [] ∧
      (∀ pre, pre <+: onCreate (backend sampleList sampleCount sampleByYear sampleCount true)
        ⟨"Dupont", "  ", "2001-02-03"⟩ → staleView.run pre = staleView) ∧
      (staleView.saving = false →
        ∀ pre, pre <+: onCreate (backend sampleList sampleCount sampleByYear sampleCount true)
          ⟨"Dupont", "  ", "2001-02-03"⟩ → (staleView.run pre).saving = false)) ∧
    (staleView.run [Event.setSaving true, Event.fetch (saveRequest staleView.form),
      Event.setError ("Create failed: " ++
        ("save → " ++ toString 500 ++ " " ++ "Internal Server Error"))]).saving = true ∧
    (staleView.run (onCreate (backend sampleList sampleCount sampleByYear (serverError "")
      true) staleView.form)).saving = false ∧
    onCreate (backend sampleList sampleCount sampleByYear (serverError "") true)
        staleView.form =
      [Event.setSaving true, Event.fetch (saveRequest staleView.form),
        Event.setError ("Create failed: " ++
          ("save → " ++ toString 500 ++ " " ++ "Internal Server Error")),
        Event.setSaving false] :=
  ⟨(onCreate_guard (backend sampleList sampleCount sampleByYear sampleCount true)
      ⟨"Dupont", "  ", "2001-02-03"⟩ staleView).1 (Or.inr (Or.inl (by decide))),
    ((onCreate_guard (backend sampleList sampleCount sampleByYear (serverError "") true)
      staleView.form staleView).2 (by decide) (by decide) (by decide)).2.2.2.2.2.1 _
      ⟨[Event.setSaving false], rfl⟩ (by simp)
      (fun h => absurd (congrArg List.length h) (by decide)),
    ((onCreate_guard (backend sampleList sampleCount sampleByYear (serverError "") true)
      staleView.form staleView).2 (by decide) (by decide) (by decide)).2.2.2.2.2.2.1,
    ((onCreate_guard (backend sampleList sampleCount sampleByYear (serverError "") true)
      staleView.form staleView).2 (by decide) (by decide) (by decide)).2.2.2.2.2.2.2.2.1
      (textResponse 500 "Internal Server Error" "") rfl (by decide)⟩

/-- C10: `onDelete` performs no effect when the user declines the
confirmation: no request, no change of state.  When the user confirms and the
answer has a status that is no success, the delete request is the only
request (no refresh runs), `students`, `count` and `yearAggregates` are what
they were, and the error message is
`Delete failed: delete → <status> <status text>`, which contains the status
code and the status text. -/
theorem onDelete_guard (env : Env) (idText : String) (s : View) (r : Response) :
    (env.confirm ("Delete student #" ++ idText ++ "?") = false →
      onDelete env idText = [] ∧ requests (onDelete env idText) = [] ∧
      s.run (onDelete env idText) = s) ∧
    (env.confirm ("Delete student #" ++ idText ++ "?") = true →
      env.fetch (deleteRequest idText) = FetchResult.resolved r → r.ok = false →
      requests (onDelete env idText) = [deleteRequest idText] ∧
      (s.run (onDelete env idText)).students = s.students ∧
      (s.run (onDelete env idText)).count = s.count ∧
      (s.run (onDelete env idText)).byYear = s.byYear ∧
      (s.run (onDelete env idText)).error =
        "Delete failed: delete → " ++ toString r.status ++ " " ++ r.statusText ∧
      (toString r.status).data <:+: (s.run (onDelete env idText)).error.data ∧
      r.statusText.data <:+: (s.run (onDelete env idText)).error.data) := by
  constructor
  · intro h
    have hc : onDelete env idText = [] := by
      unfold onDelete
      rw [h]
      rfl
    rw [hc]
    exact ⟨rfl, rfl, rfl⟩
  · intro h hf hok
    have hc : onDelete env idText = [Event.fetch (deleteRequest idText),
        Event.setError ("Delete failed: " ++
          ("delete → " ++ toString r.status ++ " " ++ r.statusText))] := by
      unfold onDelete
      rw [h, hf]
      simp [hok]
    rw [hc]
    refine ⟨rfl, rfl, rfl, rfl, ?_, ?_, ?_⟩
    · show "Delete failed: " ++ ("delete → " ++ toString r.status ++ " " ++ r.statusText) = _
      apply String.ext
      simp [String.data_append]
    · refine ⟨("Delete failed: " ++ "delete → ").data, (" " ++ r.statusText).data, ?_⟩
      show _ = ("Delete failed: " ++
        ("delete → " ++ toString r.status ++ " " ++ r.statusText)).data
      simp [String.data_append]
    · refine ⟨("Delete failed: " ++ ("delete → " ++ toString r.status ++ " ")).data, [], ?_⟩
      show _ = ("Delete failed: " ++
        ("delete → " ++ toString r.status ++ " " ++ r.statusText)).data
      simp [String.data_append]

/-- C10 at a declined delete of record `7`, and at a confirmed delete of
record `7` that the backend answers with `404 Not Found`. -/
theorem onDelete_guard_witness :
    (onDelete (backend sampleList sampleCount sampleByYear sampleCount false) "7" = [] ∧
      requests (onDelete (backend sampleList sampleCount sampleByYear sampleCount false) "7") =
        [] ∧
      staleView.run (onDelete (backend sampleList sampleCount sampleByYear sampleCount false)
        "7") = staleView) ∧
    (View.init.run (onDelete (backend sampleList sampleCount sampleByYear
      (FetchResult.resolved (textResponse 404 "Not Found" "")) true) "7")).error =
      "Delete failed: delete → " ++ toString 404 ++ " " ++ "Not Found" :=
  ⟨(onDelete_guard (backend sampleList sampleCount sampleByYear sampleCount false) "7"
      staleView (textResponse 404 "Not Found" "")).1 rfl,
    ((onDelete_guard (backend sampleList sampleCount sampleByYear
      (FetchResult.resolved (textResponse 404 "Not Found" "")) true) "7" View.init
      (textResponse 404 "Not Found" "")).2 rfl rfl (by decide)).2.2.2.2.1⟩

end Dashboard
